import Mathlib

/-!
Shallow embedding of `cpu_user_exporter.py` (a Prometheus CPU/memory
per-user exporter) and proofs about its collector and its
threshold/grace-period aggregator state machine.

Modelling conventions:
* Python dicts become association lists (`List (κ × α)`) with
  first-match lookup; Python sets become `List String` with
  membership-based operations.
* Python floats (`time.time()`, percentages, thresholds) are modelled
  as rationals `ℚ`; Python ints as `Nat`/`Int` (Python ints are
  unbounded, so no modular arithmetic is needed).
* The OS reads (`/proc/stat`, `/proc/meminfo`, `/proc/<pid>/...`,
  `getent passwd`) are inputs of each tick: a `CollectInput` carries the
  system totals, the uid→name table, and the per-process samples, where
  a `none` process stands for a read that raised
  `FileNotFoundError`/`IndexError`/`ValueError` and is skipped.
* The Prometheus gauges are modelled as a `Gauges` record: the two
  unlabeled gauges as `Option ℚ` (none = never set) and the two
  labeled gauges as association lists from the `user` label to the
  value (`remove` deletes the entry).
-/

namespace CpuUserExporter

/-! ### Association-list and list-set primitives (Python dict / set) -/

/-- First-match lookup in an association list (Python `d[k]` / `d.get(k)`). -/
def aget {κ α : Type} [DecidableEq κ] : List (κ × α) → κ → Option α
  | [], _ => none
  | (k2, v) :: rest, k => if k2 = k then some v else aget rest k

/-- Dict assignment `d[k] = v`: replace the first binding of `k`, else append. -/
def dset {κ α : Type} [DecidableEq κ] : List (κ × α) → κ → α → List (κ × α)
  | [], k, v => [(k, v)]
  | (k2, w) :: rest, k, v =>
    if k2 = k then (k2, v) :: rest else (k2, w) :: dset rest k v

/-- Dict deletion `d.pop(k, None)`: drop every binding of `k`. -/
def derase {κ α : Type} [DecidableEq κ] : List (κ × α) → κ → List (κ × α)
  | [], _ => []
  | (k2, v) :: rest, k =>
    if k2 = k then derase rest k else (k2, v) :: derase rest k

/-- `defaultdict(int)` increment: `d[k] += v` with default `0`. -/
def bump {κ : Type} [DecidableEq κ] : List (κ × Nat) → κ → Nat → List (κ × Nat)
  | [], k, v => [(k, v)]
  | (k2, w) :: rest, k, v =>
    if k2 = k then (k2, w + v) :: rest else (k2, w) :: bump rest k v

/-- The key list of an association list (Python `d.keys()`). -/
def mapKeys {κ α : Type} (m : List (κ × α)) : List κ := m.map Prod.fst

/-- Sum of the values of an association list. -/
def sumVals {κ : Type} (m : List (κ × Nat)) : Nat := (m.map Prod.snd).sum

/-- Set insertion (`s.add(x)`). -/
def insertS (l : List String) (x : String) : List String :=
  if x ∈ l then l else x :: l

/-- Set union (`s.union(t)`). -/
def unionS (l r : List String) : List String :=
  r.foldl insertS l

/-- Set removal (`s.remove(x)` / `s.discard(x)`). -/
def removeS : List String → String → List String
  | [], _ => []
  | x :: rest, u => if x = u then removeS rest u else x :: removeS rest u

/-! ### Data model -/

/-- One successfully-read `/proc/<pid>` sample: `utime` and `stime` from
`stat` fields 13/14, the RSS page count from `statm`, and the uid from the
`Uid:` line of `status` (`none` when that line is absent). -/
structure ProcData where
  utime : Nat
  stime : Nat
  rss_pages : Nat
  uid : Option Nat
  deriving Repr, DecidableEq

/-- Everything the collector reads from the OS in one tick:
the `getent passwd` uid→name table, the `/proc/stat` cpu totals, the
`/proc/meminfo` MemTotal (bytes), the page size, and the per-process
samples (`none` = the process vanished mid-scan and is skipped). -/
structure CollectInput where
  users : List (Nat × String)
  total_cpu_time : Nat
  idle_time : Nat
  total_memory : Nat
  page_size : Nat
  procs : List (Option ProcData)
  deriving Repr, DecidableEq

/-- The 6-tuple returned by `collect_cpu_memory_data`. -/
structure CollectResult where
  total_cpu_time : Nat
  idle_time : Nat
  user_cpu_times : List (String × Nat)
  total_memory : Nat
  total_memory_used : Nat
  user_memory_usage : List (String × Nat)
  deriving Repr, DecidableEq

/-- Startup configuration (immutable after argument parsing). -/
structure Config where
  grace_period : ℚ
  cpu_usage_threshold : ℚ
  exclude_system_users : Bool
  excluded_usernames : List String
  deriving Repr, DecidableEq

/-- The fields of `previous_stats` that hold the previous counter
snapshot; they are present exactly when `"previous_total_cpu_time"` is a
key of the dict, hence bundled under one `Option`. -/
structure PrevSnap where
  total_cpu_time : Nat
  idle_time : Nat
  user_cpu_times : List (String × Nat)
  deriving Repr, DecidableEq

/-- The `previous_stats` dict: cross-tick aggregator state. -/
structure AggState where
  prev : Option PrevSnap
  last_update_time : Option ℚ
  all_users : List String
  users_above_threshold : List String
  last_seen : List (String × ℚ)
  deriving Repr, DecidableEq

/-- The Prometheus gauge sink: the two unlabeled gauges and the two
user-labeled gauge families. -/
structure Gauges where
  cpu_total_usage : Option ℚ
  memory_total_usage : Option ℚ
  cpu_user_usage : List (String × ℚ)
  memory_user_usage : List (String × ℚ)
  deriving Repr, DecidableEq

/-- One tick's environment: the `time.time()` value and the OS reads. -/
structure Tick where
  current_time : ℚ
  env : CollectInput
  deriving Repr, DecidableEq

/-! ### Collector (`collect_cpu_memory_data`) -/

/-- `is_system_user`: uid < 1000. -/
def is_system_user (uid : Nat) : Bool := uid < 1000

/-- The user a process is attributed to: `none` when the process is
dropped by the system-user exclusion, otherwise the resolved name
(`users.get(uid, "[Unknown]")`, or `"[Unknown]"` when the `Uid:` line is
absent). -/
def proc_resolved_user (cfg : Config) (users : List (Nat × String))
    (p : ProcData) : Option String :=
  match p.uid with
  | some uid =>
    if cfg.exclude_system_users && is_system_user uid then none
    else some ((aget users uid).getD "[Unknown]")
  | none => some "[Unknown]"

/-- Accumulator of the per-process loop of `collect_cpu_memory_data`. -/
structure CollectAcc where
  user_cpu_times : List (String × Nat)
  user_memory_usage : List (String × Nat)
  total_memory_used : Nat
  deriving Repr, DecidableEq

/-- The body of the per-process loop of `collect_cpu_memory_data`. -/
def proc_step (cfg : Config) (users : List (Nat × String)) (page_size : Nat)
    (acc : CollectAcc) (p? : Option ProcData) : CollectAcc :=
  match p? with
  | none => acc
  | some p =>
    let total_time := p.utime + p.stime
    let memory_usage := p.rss_pages * page_size
    match proc_resolved_user cfg users p with
    | none => acc
    | some user =>
      if user ∈ cfg.excluded_usernames then acc
      else
        { user_cpu_times := bump acc.user_cpu_times user total_time,
          user_memory_usage := bump acc.user_memory_usage user memory_usage,
          total_memory_used := acc.total_memory_used + memory_usage }

/-- `collect_cpu_memory_data`: fold the per-process loop and return the
totals read from the system tables together with the per-user maps. -/
def collect_cpu_memory_data (cfg : Config) (inp : CollectInput) : CollectResult :=
  let acc := inp.procs.foldl (proc_step cfg inp.users inp.page_size) ⟨[], [], 0⟩
  { total_cpu_time := inp.total_cpu_time,
    idle_time := inp.idle_time,
    user_cpu_times := acc.user_cpu_times,
    total_memory := inp.total_memory,
    total_memory_used := acc.total_memory_used,
    user_memory_usage := acc.user_memory_usage }

/-! ### Aggregator (`update_metrics`) -/

/-- The guarded percentage `if dt > 0 then du / dt * 100.0 else 0.0`. -/
def percent_of (dt du : Int) : ℚ :=
  if 0 < dt then ((du : ℚ) / (dt : ℚ)) * 100 else 0

/-- Per-user counter delta `current.get(user, 0) - previous.get(user, 0)`. -/
def user_delta (prevU curU : List (String × Nat)) (u : String) : Int :=
  (((aget curU u).getD 0 : Nat) : Int) - (((aget prevU u).getD 0 : Nat) : Int)

/-- The body of the per-user threshold-gate loop of `update_metrics`. -/
def user_step (cfg : Config) (now : ℚ) (dt : Int)
    (prevU curU memU : List (String × Nat))
    (s : AggState × Gauges) (user : String) : AggState × Gauges :=
  let st := s.1
  let g := s.2
  let usage_percent := percent_of dt (user_delta prevU curU user)
  let memory_usage : Nat := (aget memU user).getD 0
  if cfg.cpu_usage_threshold ≤ usage_percent then
    ({ st with
        last_seen := dset st.last_seen user now,
        users_above_threshold := insertS st.users_above_threshold user },
     { g with
        cpu_user_usage := dset g.cpu_user_usage user usage_percent,
        memory_user_usage := dset g.memory_user_usage user (memory_usage : ℚ) })
  else if user ∈ st.users_above_threshold then
    (st,
     { g with
        cpu_user_usage := dset g.cpu_user_usage user 0,
        memory_user_usage := dset g.memory_user_usage user 0 })
  else
    (st, g)

/-- The body of the grace-period eviction loop of `update_metrics`. -/
def evict_step (cfg : Config) (now : ℚ)
    (s : AggState × Gauges) (user : String) : AggState × Gauges :=
  let st := s.1
  let g := s.2
  let elapsed := now - ((aget st.last_seen user).getD 0)
  if cfg.grace_period ≤ elapsed then
    ({ st with
        users_above_threshold := removeS st.users_above_threshold user,
        last_seen := derase st.last_seen user,
        all_users := removeS st.all_users user },
     { g with
        cpu_user_usage := derase g.cpu_user_usage user,
        memory_user_usage := derase g.memory_user_usage user })
  else
    (st, g)

/-- `update_metrics` after the call to `collect_cpu_memory_data`:
bootstrap branch, global gauges, threshold-gate loop, eviction loop,
then replacement of the previous snapshot. -/
def update_core (cfg : Config) (now : ℚ) (c : CollectResult)
    (st : AggState) (g : Gauges) : AggState × Gauges :=
  match st.prev with
  | none =>
    ({ st with
        prev := some ⟨c.total_cpu_time, c.idle_time, c.user_cpu_times⟩,
        last_update_time := some now,
        all_users := mapKeys c.user_cpu_times,
        users_above_threshold := [],
        last_seen := [] }, g)
  | some p =>
    let delta_total_cpu_time : Int :=
      (c.total_cpu_time : Int) - (p.total_cpu_time : Int)
    let delta_idle_time : Int := (c.idle_time : Int) - (p.idle_time : Int)
    let total_used_cpu_time : Int := delta_total_cpu_time - delta_idle_time
    let cpu_usage_percent : ℚ := percent_of delta_total_cpu_time total_used_cpu_time
    let g1 : Gauges :=
      { g with
          cpu_total_usage := some cpu_usage_percent,
          memory_total_usage := some (c.total_memory_used : ℚ) }
    let all_users := unionS st.all_users (mapKeys c.user_cpu_times)
    let st1 : AggState := { st with all_users := all_users }
    let s1 := all_users.foldl
      (user_step cfg now delta_total_cpu_time p.user_cpu_times
        c.user_cpu_times c.user_memory_usage) (st1, g1)
    let s2 := s1.1.users_above_threshold.foldl (evict_step cfg now) s1
    ({ s2.1 with
        prev := some ⟨c.total_cpu_time, c.idle_time, c.user_cpu_times⟩,
        last_update_time := some now }, s2.2)

/-- `update_metrics`: collect, then run the aggregator core. -/
def update_metrics (cfg : Config) (tk : Tick)
    (s : AggState × Gauges) : AggState × Gauges :=
  update_core cfg tk.current_time (collect_cpu_memory_data cfg tk.env) s.1 s.2

/-- The startup state of `__main__`: `previous_stats` with empty
`last_seen` / `all_users` / `users_above_threshold` and no snapshot, and
gauges that were never set. -/
def init_state : AggState × Gauges :=
  (⟨none, none, [], [], []⟩, ⟨none, none, [], []⟩)

/-- The tick loop of `__main__`: fold `update_metrics` over a list of
tick environments. -/
def run_updates (cfg : Config) : List Tick → AggState × Gauges → AggState × Gauges
  | [], s => s
  | t :: ts, s => run_updates cfg ts (update_metrics cfg t s)

/-- The per-user percentage a tick computes for `u` (0 on the bootstrap
tick, where no percentage is computed). -/
def tick_percent (cfg : Config) (tk : Tick) (st : AggState) (u : String) : ℚ :=
  match st.prev with
  | none => 0
  | some p =>
    let c := collect_cpu_memory_data cfg tk.env
    percent_of ((c.total_cpu_time : Int) - (p.total_cpu_time : Int))
      (user_delta p.user_cpu_times c.user_cpu_times u)

/-- The tick's `delta_total_cpu_time` (0 on the bootstrap tick). -/
def tick_delta_total (cfg : Config) (tk : Tick) (st : AggState) : Int :=
  match st.prev with
  | none => 0
  | some p =>
    ((collect_cpu_memory_data cfg tk.env).total_cpu_time : Int) -
      (p.total_cpu_time : Int)

/-- Sum over the tick's user loop of `delta_user_cpu_time`
(0 on the bootstrap tick). -/
def tick_user_delta_sum (cfg : Config) (tk : Tick) (st : AggState) : Int :=
  match st.prev with
  | none => 0
  | some p =>
    let c := collect_cpu_memory_data cfg tk.env
    ((unionS st.all_users (mapKeys c.user_cpu_times)).map
      (user_delta p.user_cpu_times c.user_cpu_times)).sum

/-! ### Derived definitions used by the verification -/

/-- `SameAt u a b`: states `a` and `b` agree on everything keyed by user `u`:
both labeled gauge series, the `last_seen` entry, and membership in
`users_above_threshold` and `all_users`. -/
def SameAt (u : String) (a b : AggState × Gauges) : Prop :=
  aget b.2.cpu_user_usage u = aget a.2.cpu_user_usage u ∧
  aget b.2.memory_user_usage u = aget a.2.memory_user_usage u ∧
  aget b.1.last_seen u = aget a.1.last_seen u ∧
  (u ∈ b.1.users_above_threshold ↔ u ∈ a.1.users_above_threshold) ∧
  (u ∈ b.1.all_users ↔ u ∈ a.1.all_users)

/-- The five facts that hold of a user whose series was evicted. -/
def RemovedAt (u : String) (s : AggState × Gauges) : Prop :=
  aget s.2.cpu_user_usage u = none ∧
  aget s.2.memory_user_usage u = none ∧
  u ∉ s.1.users_above_threshold ∧
  u ∉ s.1.all_users ∧
  aget s.1.last_seen u = none

/-! The non-bootstrap tick as a pipeline of named stages.
`update_core_some` below proves (definitionally) that on a tick with a
previous snapshot, `update_core` is the composition of these stages; the
claim proofs then reason stage by stage. -/

/-- Non-bootstrap tick, stage 1: set the two global gauges and extend
`all_users` with the users of the current sample. -/
def nb_start (cfg : Config) (now : ℚ) (c : CollectResult)
    (st : AggState) (g : Gauges) (p : PrevSnap) : AggState × Gauges :=
  ({ st with all_users := unionS st.all_users (mapKeys c.user_cpu_times) },
   { g with
      cpu_total_usage := some (percent_of ((c.total_cpu_time : Int) - (p.total_cpu_time : Int))
        (((c.total_cpu_time : Int) - (p.total_cpu_time : Int)) -
          ((c.idle_time : Int) - (p.idle_time : Int)))),
      memory_total_usage := some (c.total_memory_used : ℚ) })

/-- Non-bootstrap tick, stage 2: the per-user threshold-gate loop. -/
def nb_loop (cfg : Config) (now : ℚ) (c : CollectResult) (p : PrevSnap)
    (s : AggState × Gauges) : AggState × Gauges :=
  s.1.all_users.foldl
    (user_step cfg now ((c.total_cpu_time : Int) - (p.total_cpu_time : Int))
      p.user_cpu_times c.user_cpu_times c.user_memory_usage) s

/-- Non-bootstrap tick, stage 3: the grace-period eviction loop. -/
def nb_evict (cfg : Config) (now : ℚ) (s : AggState × Gauges) : AggState × Gauges :=
  s.1.users_above_threshold.foldl (evict_step cfg now) s

/-- Non-bootstrap tick, stage 4: store the current counters as the
previous snapshot. -/
def nb_final (c : CollectResult) (now : ℚ) (s : AggState × Gauges) : AggState × Gauges :=
  ({ s.1 with
      prev := some ⟨c.total_cpu_time, c.idle_time, c.user_cpu_times⟩,
      last_update_time := some now }, s.2)

/-- `never_above cfg u ticks s`: along the whole run of `ticks` from `s`,
user `u` is never at or above the CPU threshold on a non-bootstrap tick
(on a bootstrap tick no percentage is computed at all). -/
def never_above (cfg : Config) (u : String) : List Tick → AggState × Gauges → Bool
  | [], _ => true
  | t :: ts, s =>
    (s.1.prev.isNone || decide (tick_percent cfg t s.1 u < cfg.cpu_usage_threshold)) &&
      never_above cfg u ts (update_metrics cfg t s)

/-- The state invariant of the aggregator: every user of
`users_above_threshold` has a live value in both labeled gauges and is
known in `all_users`, and before the bootstrap tick no user is active. -/
def StateInv (s : AggState × Gauges) : Prop :=
  (∀ u ∈ s.1.users_above_threshold,
    (aget s.2.cpu_user_usage u).isSome ∧ (aget s.2.memory_user_usage u).isSome) ∧
  (∀ u ∈ s.1.users_above_threshold, u ∈ s.1.all_users) ∧
  (s.1.prev = none → s.1.users_above_threshold = [])

/-! Shared concrete inputs for witnesses: a configuration with grace 60
and threshold 5, a post-bootstrap state where "bob" is active with
`last_seen = 0`, and a tick at time 70 where bob's delta is 1 tick of
100 (1% < threshold), so bob is evicted exactly because 70 - 0 ≥ 60. -/

def wcfg : Config := ⟨60, 5, false, ["root"]⟩

def wprev : PrevSnap := ⟨1000, 500, [("alice", 100), ("bob", 200)]⟩

def wst : AggState := ⟨some wprev, some 0, ["alice", "bob"], ["bob"], [("bob", 0)]⟩

def wg : Gauges := ⟨some 1, some 2, [("bob", 7)], [("bob", 8)]⟩

def wenv : CollectInput :=
  ⟨[(1001, "alice"), (1002, "bob")], 1100, 540, 999, 1,
    [some ⟨130, 0, 7, some 1001⟩, some ⟨201, 0, 11, some 1002⟩]⟩

def wtk : Tick := ⟨70, wenv⟩

/-- A tick at time 10 with the same environment as `wtk`: bob is below
threshold but the grace period has not elapsed (10 - 0 < 60). -/
def wtk4 : Tick := ⟨10, wenv⟩

/-- A tick whose total CPU counter regressed below the stored snapshot
(900 < 1000), at time 10. -/
def wtkZ : Tick :=
  ⟨10, ⟨[(1001, "alice"), (1002, "bob")], 900, 540, 999, 1,
    [some ⟨130, 0, 7, some 1001⟩, some ⟨201, 0, 11, some 1002⟩]⟩⟩

/-- A configuration that also excludes system users (uid < 1000). -/
def wcfgS : Config := ⟨60, 5, true, ["root"]⟩

/-- A process owned by a system uid (5 < 1000). -/
def wpSys : ProcData := ⟨50, 0, 9, some 5⟩

/-- A process owned by root (uid 0). -/
def wpRoot : ProcData := ⟨999, 0, 3, some 0⟩

/-- An environment that also contains a root-owned process and the root
entry of the uid table. -/
def wenvR : CollectInput :=
  ⟨[(0, "root"), (1001, "alice"), (1002, "bob")], 1100, 540, 999, 1,
    [some wpRoot, some ⟨130, 0, 7, some 1001⟩, some ⟨201, 0, 11, some 1002⟩]⟩

/-! Synthetic counters for the attribution-bound analysis: first a pair
of ticks where alice's per-process counter advances by 5 while the
system-wide total does not advance at all, then the spec's example where
alice advances 30 and bob 20 against a 100-tick total delta with 40
idle. -/

def w8env1 : CollectInput :=
  ⟨[(1001, "alice")], 100, 50, 9, 1, [some ⟨0, 0, 0, some 1001⟩]⟩

def w8env2 : CollectInput :=
  ⟨[(1001, "alice")], 100, 50, 9, 1, [some ⟨5, 0, 0, some 1001⟩]⟩

def w8aenv1 : CollectInput :=
  ⟨[(1001, "alice"), (1002, "bob")], 1000, 500, 9, 1,
    [some ⟨100, 0, 0, some 1001⟩, some ⟨200, 0, 0, some 1002⟩]⟩

def w8aenv2 : CollectInput :=
  ⟨[(1001, "alice"), (1002, "bob")], 1100, 540, 9, 1,
    [some ⟨130, 0, 0, some 1001⟩, some ⟨220, 0, 0, some 1002⟩]⟩

/-! ### Lemmas about the dict/set primitives -/

theorem aget_dset {κ α : Type} [DecidableEq κ] (m : List (κ × α)) (k k2 : κ) (v : α) :
    aget (dset m k v) k2 = if k = k2 then some v else aget m k2 := by
  induction m with
  | nil =>
    by_cases h : k = k2 <;> simp [dset, aget, h]
  | cons hd tl ih =>
    obtain ⟨k3, w⟩ := hd
    by_cases h3 : k3 = k
    · subst h3
      by_cases h : k3 = k2 <;> simp [dset, aget, h]
    · by_cases h : k3 = k2
      · subst h
        have hk : ¬ k = k3 := fun hh => h3 hh.symm
        simp [dset, aget, h3, hk]
      · simp [dset, aget, h3, h, ih]

theorem aget_derase {κ α : Type} [DecidableEq κ] (m : List (κ × α)) (k k2 : κ) :
    aget (derase m k) k2 = if k = k2 then none else aget m k2 := by
  induction m with
  | nil => by_cases h : k = k2 <;> simp [derase, aget, h]
  | cons hd tl ih =>
    obtain ⟨k3, w⟩ := hd
    by_cases h3 : k3 = k
    · subst h3
      by_cases h : k3 = k2
      · subst h; simp [derase, aget, ih]
      · simp [derase, aget, h, ih]
    · by_cases h : k3 = k2
      · subst h
        have hk : ¬ k = k3 := fun hh => h3 hh.symm
        simp [derase, aget, h3, hk]
      · simp [derase, aget, h3, h, ih]

theorem aget_bump {κ : Type} [DecidableEq κ] (m : List (κ × Nat)) (k k2 : κ) (v : Nat) :
    aget (bump m k v) k2 =
      if k = k2 then some ((aget m k).getD 0 + v) else aget m k2 := by
  induction m with
  | nil => by_cases h : k = k2 <;> simp [bump, aget, h]
  | cons hd tl ih =>
    obtain ⟨k3, w⟩ := hd
    by_cases h3 : k3 = k
    · subst h3
      by_cases h : k3 = k2 <;> simp [bump, aget, h]
    · by_cases h : k3 = k2
      · subst h
        have hk : ¬ k = k3 := fun hh => h3 hh.symm
        simp [bump, aget, h3, hk]
      · simp [bump, aget, h3, h, ih]

theorem mem_keys_bump {κ : Type} [DecidableEq κ] (m : List (κ × Nat)) (k k2 : κ) (v : Nat) :
    k2 ∈ mapKeys (bump m k v) ↔ k2 = k ∨ k2 ∈ mapKeys m := by
  induction m with
  | nil => simp [bump, mapKeys]
  | cons hd tl ih =>
    obtain ⟨k3, w⟩ := hd
    by_cases h3 : k3 = k
    · subst h3; simp [bump, mapKeys]
    · simp [bump, mapKeys, h3] at ih ⊢
      rw [ih]
      tauto

theorem sumVals_bump {κ : Type} [DecidableEq κ] (m : List (κ × Nat)) (k : κ) (v : Nat) :
    sumVals (bump m k v) = sumVals m + v := by
  induction m with
  | nil => simp [bump, sumVals]
  | cons hd tl ih =>
    obtain ⟨k3, w⟩ := hd
    by_cases h3 : k3 = k
    · subst h3; simp [bump, sumVals]; omega
    · simp [bump, sumVals, h3] at ih ⊢; omega

theorem mem_insertS (l : List String) (x u : String) :
    u ∈ insertS l x ↔ u ∈ l ∨ u = x := by
  by_cases h : x ∈ l
  · simp only [insertS, if_pos h]
    constructor
    · exact Or.inl
    · rintro (hu | rfl) <;> [exact hu; exact h]
  · simp [insertS, if_neg h]
    tauto

theorem mem_unionS (l r : List String) (u : String) :
    u ∈ unionS l r ↔ u ∈ l ∨ u ∈ r := by
  induction r generalizing l with
  | nil => simp [unionS]
  | cons hd tl ih =>
    show u ∈ unionS (insertS l hd) tl ↔ _
    rw [ih, mem_insertS]
    simp
    tauto

theorem mem_removeS (l : List String) (x u : String) :
    u ∈ removeS l x ↔ u ∈ l ∧ u ≠ x := by
  induction l with
  | nil => simp [removeS]
  | cons hd tl ih =>
    by_cases h : hd = x
    · subst h
      simp only [removeS, if_true]
      rw [ih]
      constructor
      · rintro ⟨hm, hn⟩; exact ⟨List.mem_cons_of_mem _ hm, hn⟩
      · rintro ⟨hm, hn⟩
        rcases List.mem_cons.mp hm with rfl | hm
        · exact absurd rfl hn
        · exact ⟨hm, hn⟩
    · simp only [removeS, if_neg h]
      constructor
      · intro hm
        rcases List.mem_cons.mp hm with rfl | hm
        · exact ⟨List.mem_cons_self _ _, fun he => h he⟩
        · rcases ih.mp hm with ⟨hm2, hn⟩
          exact ⟨List.mem_cons_of_mem _ hm2, hn⟩
      · rintro ⟨hm, hn⟩
        rcases List.mem_cons.mp hm with rfl | hm
        · exact List.mem_cons_self _ _
        · exact List.mem_cons_of_mem _ (ih.mpr ⟨hm, hn⟩)

/-! ### The per-user-visible part of a state -/

theorem SameAt.refl (u : String) (s : AggState × Gauges) : SameAt u s s :=
  ⟨rfl, rfl, rfl, Iff.rfl, Iff.rfl⟩

theorem SameAt.trans {u : String} {a b c : AggState × Gauges}
    (h1 : SameAt u a b) (h2 : SameAt u b c) : SameAt u a c :=
  ⟨h2.1.trans h1.1, h2.2.1.trans h1.2.1, h2.2.2.1.trans h1.2.2.1,
   h2.2.2.2.1.trans h1.2.2.2.1, h2.2.2.2.2.trans h1.2.2.2.2⟩

/-! ### Lemmas about the threshold-gate loop body (`user_step`) -/

section ThresholdLoop

variable (cfg : Config) (now : ℚ) (dt : Int) (prevU curU memU : List (String × Nat))

theorem user_step_const (s : AggState × Gauges) (w : String) :
    (user_step cfg now dt prevU curU memU s w).1.all_users = s.1.all_users ∧
    (user_step cfg now dt prevU curU memU s w).1.prev = s.1.prev ∧
    (user_step cfg now dt prevU curU memU s w).1.last_update_time = s.1.last_update_time ∧
    (user_step cfg now dt prevU curU memU s w).2.cpu_total_usage = s.2.cpu_total_usage ∧
    (user_step cfg now dt prevU curU memU s w).2.memory_total_usage = s.2.memory_total_usage := by
  simp only [user_step]
  split_ifs <;> simp

theorem user_step_other (s : AggState × Gauges) (w u : String) (hwu : w ≠ u) :
    SameAt u s (user_step cfg now dt prevU curU memU s w) := by
  have huw : u ≠ w := fun h => hwu h.symm
  simp only [user_step]
  split_ifs <;>
    simp [SameAt, aget_dset, mem_insertS, hwu, huw]

theorem user_step_above_mono (s : AggState × Gauges) (w u : String)
    (h : u ∈ s.1.users_above_threshold) :
    u ∈ (user_step cfg now dt prevU curU memU s w).1.users_above_threshold := by
  simp only [user_step]
  split_ifs <;> simp [mem_insertS, h]

theorem user_step_presence (s : AggState × Gauges) (w u : String) :
    ((aget s.2.cpu_user_usage u).isSome →
      (aget (user_step cfg now dt prevU curU memU s w).2.cpu_user_usage u).isSome) ∧
    ((aget s.2.memory_user_usage u).isSome →
      (aget (user_step cfg now dt prevU curU memU s w).2.memory_user_usage u).isSome) := by
  simp only [user_step]
  split_ifs <;> by_cases hwu : w = u <;>
    simp [aget_dset, hwu]

theorem user_step_self_hi (s : AggState × Gauges) (u : String)
    (hth : cfg.cpu_usage_threshold ≤ percent_of dt (user_delta prevU curU u)) :
    aget (user_step cfg now dt prevU curU memU s u).2.cpu_user_usage u =
      some (percent_of dt (user_delta prevU curU u)) ∧
    aget (user_step cfg now dt prevU curU memU s u).2.memory_user_usage u =
      some (((aget memU u).getD 0 : Nat) : ℚ) ∧
    aget (user_step cfg now dt prevU curU memU s u).1.last_seen u = some now ∧
    u ∈ (user_step cfg now dt prevU curU memU s u).1.users_above_threshold := by
  simp only [user_step, if_pos hth]
  simp [aget_dset, mem_insertS]

theorem user_step_self_lo_in (s : AggState × Gauges) (u : String)
    (hth : percent_of dt (user_delta prevU curU u) < cfg.cpu_usage_threshold)
    (hin : u ∈ s.1.users_above_threshold) :
    (user_step cfg now dt prevU curU memU s u).1 = s.1 ∧
    aget (user_step cfg now dt prevU curU memU s u).2.cpu_user_usage u = some 0 ∧
    aget (user_step cfg now dt prevU curU memU s u).2.memory_user_usage u = some 0 := by
  have hth2 : ¬ cfg.cpu_usage_threshold ≤ percent_of dt (user_delta prevU curU u) :=
    not_le.mpr hth
  simp only [user_step, if_neg hth2, if_pos hin]
  simp [aget_dset]

theorem user_step_self_lo_out (s : AggState × Gauges) (u : String)
    (hth : percent_of dt (user_delta prevU curU u) < cfg.cpu_usage_threshold)
    (hout : u ∉ s.1.users_above_threshold) :
    user_step cfg now dt prevU curU memU s u = s := by
  have hth2 : ¬ cfg.cpu_usage_threshold ≤ percent_of dt (user_delta prevU curU u) :=
    not_le.mpr hth
  simp only [user_step, if_neg hth2, if_neg hout]

end ThresholdLoop

/-! ### Lemmas about the whole threshold-gate loop (`List.foldl user_step`) -/

section ThresholdFold

variable (cfg : Config) (now : ℚ) (dt : Int) (prevU curU memU : List (String × Nat))

theorem loopF_const (l : List String) (s : AggState × Gauges) :
    (l.foldl (user_step cfg now dt prevU curU memU) s).1.all_users = s.1.all_users ∧
    (l.foldl (user_step cfg now dt prevU curU memU) s).1.prev = s.1.prev ∧
    (l.foldl (user_step cfg now dt prevU curU memU) s).1.last_update_time =
      s.1.last_update_time ∧
    (l.foldl (user_step cfg now dt prevU curU memU) s).2.cpu_total_usage =
      s.2.cpu_total_usage ∧
    (l.foldl (user_step cfg now dt prevU curU memU) s).2.memory_total_usage =
      s.2.memory_total_usage := by
  induction l generalizing s with
  | nil => exact ⟨rfl, rfl, rfl, rfl, rfl⟩
  | cons w l ih =>
    have h1 := user_step_const cfg now dt prevU curU memU s w
    have h2 := ih (user_step cfg now dt prevU curU memU s w)
    simp only [List.foldl_cons]
    exact ⟨h2.1.trans h1.1, h2.2.1.trans h1.2.1, h2.2.2.1.trans h1.2.2.1,
      h2.2.2.2.1.trans h1.2.2.2.1, h2.2.2.2.2.trans h1.2.2.2.2⟩

theorem loopF_not_mem (l : List String) (u : String) (hu : u ∉ l)
    (s : AggState × Gauges) :
    SameAt u s (l.foldl (user_step cfg now dt prevU curU memU) s) := by
  induction l generalizing s with
  | nil => exact SameAt.refl u s
  | cons w l ih =>
    have hwu : w ≠ u := fun h => hu (h ▸ List.mem_cons_self w l)
    have hul : u ∉ l := fun h => hu (List.mem_cons_of_mem w h)
    exact (user_step_other cfg now dt prevU curU memU s w u hwu).trans
      (ih hul (user_step cfg now dt prevU curU memU s w))

theorem loopF_above_mono (l : List String) (u : String) (s : AggState × Gauges)
    (h : u ∈ s.1.users_above_threshold) :
    u ∈ (l.foldl (user_step cfg now dt prevU curU memU) s).1.users_above_threshold := by
  induction l generalizing s with
  | nil => exact h
  | cons w l ih =>
    exact ih _ (user_step_above_mono cfg now dt prevU curU memU s w u h)

theorem loopF_presence (l : List String) (u : String) (s : AggState × Gauges) :
    ((aget s.2.cpu_user_usage u).isSome →
      (aget (l.foldl (user_step cfg now dt prevU curU memU) s).2.cpu_user_usage u).isSome) ∧
    ((aget s.2.memory_user_usage u).isSome →
      (aget (l.foldl (user_step cfg now dt prevU curU memU) s).2.memory_user_usage u).isSome) := by
  induction l generalizing s with
  | nil => exact ⟨id, id⟩
  | cons w l ih =>
    have h1 := user_step_presence cfg now dt prevU curU memU s w u
    have h2 := ih (user_step cfg now dt prevU curU memU s w)
    exact ⟨fun h => h2.1 (h1.1 h), fun h => h2.2 (h1.2 h)⟩

theorem loopF_hi (l : List String) (u : String) (hul : u ∈ l)
    (hth : cfg.cpu_usage_threshold ≤ percent_of dt (user_delta prevU curU u))
    (s : AggState × Gauges) :
    aget (l.foldl (user_step cfg now dt prevU curU memU) s).2.cpu_user_usage u =
      some (percent_of dt (user_delta prevU curU u)) ∧
    aget (l.foldl (user_step cfg now dt prevU curU memU) s).2.memory_user_usage u =
      some (((aget memU u).getD 0 : Nat) : ℚ) ∧
    aget (l.foldl (user_step cfg now dt prevU curU memU) s).1.last_seen u = some now ∧
    u ∈ (l.foldl (user_step cfg now dt prevU curU memU) s).1.users_above_threshold := by
  induction l generalizing s with
  | nil => cases hul
  | cons w l ih =>
    by_cases hl : u ∈ l
    · exact ih hl _
    · have hw : w = u := by
        rcases List.mem_cons.mp hul with h | h
        · exact h.symm
        · exact absurd h hl
      subst hw
      have h1 := user_step_self_hi cfg now dt prevU curU memU s w hth
      have h2 := loopF_not_mem cfg now dt prevU curU memU l w hl
        (user_step cfg now dt prevU curU memU s w)
      refine ⟨h2.1.trans h1.1, h2.2.1.trans h1.2.1, h2.2.2.1.trans h1.2.2.1, ?_⟩
      exact h2.2.2.2.1.mpr h1.2.2.2

theorem loopF_lo_in (l : List String) (u : String) (hul : u ∈ l)
    (hth : percent_of dt (user_delta prevU curU u) < cfg.cpu_usage_threshold)
    (s : AggState × Gauges) (hin : u ∈ s.1.users_above_threshold) :
    aget (l.foldl (user_step cfg now dt prevU curU memU) s).2.cpu_user_usage u = some 0 ∧
    aget (l.foldl (user_step cfg now dt prevU curU memU) s).2.memory_user_usage u = some 0 ∧
    aget (l.foldl (user_step cfg now dt prevU curU memU) s).1.last_seen u =
      aget s.1.last_seen u ∧
    u ∈ (l.foldl (user_step cfg now dt prevU curU memU) s).1.users_above_threshold := by
  induction l generalizing s with
  | nil => cases hul
  | cons w l ih =>
    simp only [List.foldl_cons]
    by_cases hl : u ∈ l
    · have h0 := user_step_above_mono cfg now dt prevU curU memU s w u hin
      have h2 := ih hl (user_step cfg now dt prevU curU memU s w) h0
      by_cases hwu : w = u
      · subst hwu
        have h1 := user_step_self_lo_in cfg now dt prevU curU memU s w hth hin
        refine ⟨h2.1, h2.2.1, ?_, h2.2.2.2⟩
        rw [h2.2.2.1, h1.1]
      · have h1 := user_step_other cfg now dt prevU curU memU s w u hwu
        exact ⟨h2.1, h2.2.1, h2.2.2.1.trans h1.2.2.1, h2.2.2.2⟩
    · have hw : w = u := by
        rcases List.mem_cons.mp hul with h | h
        · exact h.symm
        · exact absurd h hl
      subst hw
      have h1 := user_step_self_lo_in cfg now dt prevU curU memU s w hth hin
      have h2 := loopF_not_mem cfg now dt prevU curU memU l w hl
        (user_step cfg now dt prevU curU memU s w)
      refine ⟨h2.1.trans h1.2.1, h2.2.1.trans h1.2.2, ?_, ?_⟩
      · rw [h2.2.2.1, h1.1]
      · rw [h2.2.2.2.1]
        rw [h1.1]
        exact hin

theorem loopF_lo_out (l : List String) (u : String)
    (hth : percent_of dt (user_delta prevU curU u) < cfg.cpu_usage_threshold)
    (s : AggState × Gauges) (hout : u ∉ s.1.users_above_threshold) :
    SameAt u s (l.foldl (user_step cfg now dt prevU curU memU) s) := by
  induction l generalizing s with
  | nil => exact SameAt.refl u s
  | cons w l ih =>
    by_cases hwu : w = u
    · subst hwu
      rw [List.foldl_cons,
        user_step_self_lo_out cfg now dt prevU curU memU s w hth hout]
      exact ih s hout
    · have h1 := user_step_other cfg now dt prevU curU memU s w u hwu
      have hout2 : u ∉ (user_step cfg now dt prevU curU memU s w).1.users_above_threshold :=
        fun h => hout (h1.2.2.2.1.mp h)
      exact h1.trans (ih _ hout2)

theorem loopF_entered (l : List String) (u : String) (s : AggState × Gauges)
    (hout : u ∉ s.1.users_above_threshold)
    (hin : u ∈ (l.foldl (user_step cfg now dt prevU curU memU) s).1.users_above_threshold) :
    cfg.cpu_usage_threshold ≤ percent_of dt (user_delta prevU curU u) ∧ u ∈ l ∧
    (aget (l.foldl (user_step cfg now dt prevU curU memU) s).2.cpu_user_usage u).isSome ∧
    (aget (l.foldl (user_step cfg now dt prevU curU memU) s).2.memory_user_usage u).isSome := by
  by_cases hth : cfg.cpu_usage_threshold ≤ percent_of dt (user_delta prevU curU u)
  · by_cases hl : u ∈ l
    · have h := loopF_hi cfg now dt prevU curU memU l u hl hth s
      refine ⟨hth, hl, ?_, ?_⟩
      · rw [h.1]; rfl
      · rw [h.2.1]; rfl
    · have h := loopF_not_mem cfg now dt prevU curU memU l u hl s
      exact absurd (h.2.2.2.1.mp hin) hout
  · have h := loopF_lo_out cfg now dt prevU curU memU l u (not_le.mp hth) s hout
    exact absurd (h.2.2.2.1.mp hin) hout

theorem loopF_zero_writes (l : List String) (hdt : ¬ 0 < dt)
    (s : AggState × Gauges) (u : String) (v : ℚ)
    (h : aget (l.foldl (user_step cfg now dt prevU curU memU) s).2.cpu_user_usage u = some v) :
    v = 0 ∨ aget s.2.cpu_user_usage u = some v := by
  induction l generalizing s with
  | nil => exact Or.inr h
  | cons w l ih =>
    rcases ih (user_step cfg now dt prevU curU memU s w) h with h0 | h1
    · exact Or.inl h0
    · by_cases hwu : w = u
      · subst hwu
        have hz : percent_of dt (user_delta prevU curU w) = 0 := by
          simp [percent_of, hdt]
        by_cases hth : cfg.cpu_usage_threshold ≤ percent_of dt (user_delta prevU curU w)
        · have hs := user_step_self_hi cfg now dt prevU curU memU s w hth
          rw [hs.1, hz] at h1
          exact Or.inl (Option.some_injective _ h1).symm
        · by_cases hin : w ∈ s.1.users_above_threshold
          · have hs := user_step_self_lo_in cfg now dt prevU curU memU s w
              (not_le.mp hth) hin
            rw [hs.2.1] at h1
            exact Or.inl (Option.some_injective _ h1).symm
          · have hs := user_step_self_lo_out cfg now dt prevU curU memU s w
              (not_le.mp hth) hin
            rw [hs] at h1
            exact Or.inr h1
      · have hs := user_step_other cfg now dt prevU curU memU s w u hwu
        rw [hs.1] at h1
        exact Or.inr h1

end ThresholdFold

/-! ### Lemmas about the eviction loop (`evict_step` and its fold) -/

section EvictLoop

variable (cfg : Config) (now : ℚ)

theorem evict_step_other (s : AggState × Gauges) (w u : String) (hwu : w ≠ u) :
    SameAt u s (evict_step cfg now s w) := by
  have huw : u ≠ w := fun h => hwu h.symm
  simp only [evict_step]
  split_ifs <;>
    simp [SameAt, aget_derase, mem_removeS, hwu, huw]

theorem evict_step_const (s : AggState × Gauges) (w : String) :
    (evict_step cfg now s w).1.prev = s.1.prev ∧
    (evict_step cfg now s w).1.last_update_time = s.1.last_update_time ∧
    (evict_step cfg now s w).2.cpu_total_usage = s.2.cpu_total_usage ∧
    (evict_step cfg now s w).2.memory_total_usage = s.2.memory_total_usage := by
  simp only [evict_step]
  split_ifs <;> simp

theorem evict_step_shrink (s : AggState × Gauges) (w u : String)
    (h : u ∉ s.1.users_above_threshold) :
    u ∉ (evict_step cfg now s w).1.users_above_threshold := by
  simp only [evict_step]
  split_ifs
  · simp [mem_removeS, h]
  · exact h

theorem evict_step_keep (s : AggState × Gauges) (u : String) (t : ℚ)
    (hls : aget s.1.last_seen u = some t) (ht : now - t < cfg.grace_period) :
    evict_step cfg now s u = s := by
  have hc : ¬ cfg.grace_period ≤ now - (aget s.1.last_seen u).getD 0 := by
    rw [hls]
    exact not_le.mpr ht
  simp only [evict_step, if_neg hc]

theorem evict_step_self_evict (s : AggState × Gauges) (u : String) (t : ℚ)
    (hls : aget s.1.last_seen u = some t) (ht : cfg.grace_period ≤ now - t) :
    RemovedAt u (evict_step cfg now s u) := by
  have hc : cfg.grace_period ≤ now - (aget s.1.last_seen u).getD 0 := by
    rw [hls]; exact ht
  simp only [evict_step, if_pos hc]
  simp [RemovedAt, aget_derase, mem_removeS]

theorem evict_step_removed_stable (s : AggState × Gauges) (w u : String)
    (h : RemovedAt u s) : RemovedAt u (evict_step cfg now s w) := by
  by_cases hwu : w = u
  · subst hwu
    simp only [evict_step]
    split_ifs
    · simp only [RemovedAt, aget_derase, mem_removeS]
      refine ⟨?_, ?_, ?_, ?_, ?_⟩ <;> simp [h.1, h.2.1, h.2.2.2.2]
    · exact h
  · have hs := evict_step_other cfg now s w u hwu
    exact ⟨hs.1.trans h.1, hs.2.1.trans h.2.1,
      fun hm => h.2.2.1 (hs.2.2.2.1.mp hm),
      fun hm => h.2.2.2.1 (hs.2.2.2.2.mp hm),
      hs.2.2.1.trans h.2.2.2.2⟩

theorem evict_step_lookup_some (s : AggState × Gauges) (w u : String) (v : ℚ) :
    (aget (evict_step cfg now s w).2.cpu_user_usage u = some v →
      aget s.2.cpu_user_usage u = some v) ∧
    (aget (evict_step cfg now s w).2.memory_user_usage u = some v →
      aget s.2.memory_user_usage u = some v) := by
  simp only [evict_step]
  split_ifs
  · by_cases hwu : w = u
    · subst hwu
      simp [aget_derase]
    · have huw : ¬ w = u := hwu
      simp [aget_derase, huw]
  · exact ⟨id, id⟩

theorem evict_step_in_above (s : AggState × Gauges) (u : String)
    (h : u ∈ (evict_step cfg now s u).1.users_above_threshold) :
    evict_step cfg now s u = s := by
  by_cases hc : cfg.grace_period ≤ now - (aget s.1.last_seen u).getD 0
  · exfalso
    simp only [evict_step, if_pos hc] at h
    simp [mem_removeS] at h
  · simp only [evict_step, if_neg hc]

end EvictLoop

section EvictFold

variable (cfg : Config) (now : ℚ)

theorem efoldF_const (rl : List String) (s : AggState × Gauges) :
    (rl.foldl (evict_step cfg now) s).1.prev = s.1.prev ∧
    (rl.foldl (evict_step cfg now) s).1.last_update_time = s.1.last_update_time ∧
    (rl.foldl (evict_step cfg now) s).2.cpu_total_usage = s.2.cpu_total_usage ∧
    (rl.foldl (evict_step cfg now) s).2.memory_total_usage = s.2.memory_total_usage := by
  induction rl generalizing s with
  | nil => exact ⟨rfl, rfl, rfl, rfl⟩
  | cons w rl ih =>
    have h1 := evict_step_const cfg now s w
    have h2 := ih (evict_step cfg now s w)
    exact ⟨h2.1.trans h1.1, h2.2.1.trans h1.2.1, h2.2.2.1.trans h1.2.2.1,
      h2.2.2.2.trans h1.2.2.2⟩

theorem efoldF_keep (rl : List String) (u : String) (t : ℚ) (s : AggState × Gauges)
    (hls : aget s.1.last_seen u = some t) (ht : now - t < cfg.grace_period) :
    SameAt u s (rl.foldl (evict_step cfg now) s) := by
  induction rl generalizing s with
  | nil => exact SameAt.refl u s
  | cons w rl ih =>
    simp only [List.foldl_cons]
    by_cases hwu : w = u
    · subst hwu
      rw [evict_step_keep cfg now s w t hls ht]
      exact ih s hls
    · have h1 := evict_step_other cfg now s w u hwu
      have hls2 : aget (evict_step cfg now s w).1.last_seen u = some t :=
        h1.2.2.1.trans hls
      exact h1.trans (ih _ hls2)

theorem efoldF_removed_stable (rl : List String) (u : String) (s : AggState × Gauges)
    (h : RemovedAt u s) : RemovedAt u (rl.foldl (evict_step cfg now) s) := by
  induction rl generalizing s with
  | nil => exact h
  | cons w rl ih =>
    exact ih _ (evict_step_removed_stable cfg now s w u h)

theorem efoldF_evict (rl : List String) (u : String) (hurl : u ∈ rl) (t : ℚ)
    (s : AggState × Gauges)
    (hls : aget s.1.last_seen u = some t) (ht : cfg.grace_period ≤ now - t) :
    RemovedAt u (rl.foldl (evict_step cfg now) s) := by
  induction rl generalizing s with
  | nil => cases hurl
  | cons w rl ih =>
    simp only [List.foldl_cons]
    by_cases hwu : w = u
    · subst hwu
      exact efoldF_removed_stable cfg now rl w _
        (evict_step_self_evict cfg now s w t hls ht)
    · have hrl : u ∈ rl := by
        rcases List.mem_cons.mp hurl with h | h
        · exact absurd h.symm hwu
        · exact h
      have h1 := evict_step_other cfg now s w u hwu
      exact ih hrl _ (h1.2.2.1.trans hls)

theorem efoldF_lookup_some (rl : List String) (u : String) (v : ℚ) (s : AggState × Gauges) :
    (aget (rl.foldl (evict_step cfg now) s).2.cpu_user_usage u = some v →
      aget s.2.cpu_user_usage u = some v) ∧
    (aget (rl.foldl (evict_step cfg now) s).2.memory_user_usage u = some v →
      aget s.2.memory_user_usage u = some v) := by
  induction rl generalizing s with
  | nil => exact ⟨id, id⟩
  | cons w rl ih =>
    have h1 := evict_step_lookup_some cfg now s w u v
    have h2 := ih (evict_step cfg now s w)
    exact ⟨fun h => h1.1 (h2.1 h), fun h => h1.2 (h2.2 h)⟩

theorem efoldF_shrink (rl : List String) (u : String) (s : AggState × Gauges)
    (h : u ∉ s.1.users_above_threshold) :
    u ∉ (rl.foldl (evict_step cfg now) s).1.users_above_threshold := by
  induction rl generalizing s with
  | nil => exact h
  | cons w rl ih =>
    exact ih _ (evict_step_shrink cfg now s w u h)

theorem efoldF_in_above (rl : List String) (u : String) (s : AggState × Gauges)
    (h : u ∈ (rl.foldl (evict_step cfg now) s).1.users_above_threshold) :
    SameAt u s (rl.foldl (evict_step cfg now) s) := by
  induction rl generalizing s with
  | nil => exact SameAt.refl u s
  | cons w rl ih =>
    simp only [List.foldl_cons] at h ⊢
    by_cases hin : u ∈ (evict_step cfg now s w).1.users_above_threshold
    · have h2 := ih _ h
      by_cases hwu : w = u
      · subst hwu
        rw [evict_step_in_above cfg now s w hin] at h2 ⊢
        exact h2
      · exact (evict_step_other cfg now s w u hwu).trans h2
    · exact absurd (efoldF_shrink cfg now rl u _ hin) (fun hn => hn h)

theorem evict_step_above_drop (cfg : Config) (now : ℚ) (s : AggState × Gauges)
    (u : String) (hin : u ∈ s.1.users_above_threshold)
    (hout : u ∉ (evict_step cfg now s u).1.users_above_threshold) :
    RemovedAt u (evict_step cfg now s u) := by
  by_cases hc : cfg.grace_period ≤ now - (aget s.1.last_seen u).getD 0
  · simp only [evict_step, if_pos hc]
    simp [RemovedAt, aget_derase, mem_removeS]
  · exfalso
    simp only [evict_step, if_neg hc] at hout
    exact hout hin

theorem efoldF_removed (cfg : Config) (now : ℚ) (rl : List String) (u : String)
    (s : AggState × Gauges) (hin : u ∈ s.1.users_above_threshold)
    (hout : u ∉ (rl.foldl (evict_step cfg now) s).1.users_above_threshold) :
    RemovedAt u (rl.foldl (evict_step cfg now) s) := by
  induction rl generalizing s with
  | nil => exact absurd hin hout
  | cons w rl ih =>
    simp only [List.foldl_cons] at hout ⊢
    by_cases hin2 : u ∈ (evict_step cfg now s w).1.users_above_threshold
    · exact ih _ hin2 hout
    · have hwu : w = u := by
        by_contra hwu
        exact hin2 ((evict_step_other cfg now s w u hwu).2.2.2.1.mpr hin)
      subst hwu
      exact efoldF_removed_stable cfg now rl w _
        (evict_step_above_drop cfg now s w hin hin2)

theorem evict_step_all_shrink (cfg : Config) (now : ℚ) (s : AggState × Gauges)
    (w u : String) (h : u ∉ s.1.all_users) :
    u ∉ (evict_step cfg now s w).1.all_users := by
  simp only [evict_step]
  split_ifs
  · simp [mem_removeS, h]
  · exact h

theorem efoldF_all_shrink (cfg : Config) (now : ℚ) (rl : List String) (u : String)
    (s : AggState × Gauges) (h : u ∉ s.1.all_users) :
    u ∉ (rl.foldl (evict_step cfg now) s).1.all_users := by
  induction rl generalizing s with
  | nil => exact h
  | cons w rl ih =>
    exact ih _ (evict_step_all_shrink cfg now s w u h)

theorem efoldF_none (cfg : Config) (now : ℚ) (rl : List String) (u : String)
    (s : AggState × Gauges) :
    (aget s.2.cpu_user_usage u = none →
      aget (rl.foldl (evict_step cfg now) s).2.cpu_user_usage u = none) ∧
    (aget s.2.memory_user_usage u = none →
      aget (rl.foldl (evict_step cfg now) s).2.memory_user_usage u = none) := by
  constructor <;> intro h
  · rcases hr : aget (rl.foldl (evict_step cfg now) s).2.cpu_user_usage u with _ | v
    · rfl
    · rw [(efoldF_lookup_some cfg now rl u v s).1 hr] at h
      cases h
  · rcases hr : aget (rl.foldl (evict_step cfg now) s).2.memory_user_usage u with _ | v
    · rfl
    · rw [(efoldF_lookup_some cfg now rl u v s).2 hr] at h
      cases h

end EvictFold

/-! ### Collector lemmas -/

theorem aget_eq_none {κ α : Type} [DecidableEq κ] (m : List (κ × α)) (k : κ) :
    aget m k = none ↔ k ∉ mapKeys m := by
  induction m with
  | nil => simp [aget, mapKeys]
  | cons hd tl ih =>
    obtain ⟨k2, v⟩ := hd
    by_cases h : k2 = k
    · subst h; simp [aget, mapKeys]
    · have hk : k ≠ k2 := fun he => h he.symm
      simp [aget, mapKeys, h, hk, ih]

theorem proc_step_skip (cfg : Config) (users : List (Nat × String)) (ps : Nat)
    (acc : CollectAcc) (p : ProcData)
    (hskip : proc_resolved_user cfg users p = none ∨
      ∃ name, proc_resolved_user cfg users p = some name ∧
        name ∈ cfg.excluded_usernames) :
    proc_step cfg users ps acc (some p) = acc := by
  rcases hskip with h | ⟨name, h, hmem⟩
  · simp [proc_step, h]
  · simp [proc_step, h, hmem]

theorem collect_fold_excluded (cfg : Config) (users : List (Nat × String)) (ps : Nat)
    (procs : List (Option ProcData)) (acc : CollectAcc) (u : String)
    (hu : u ∈ cfg.excluded_usernames)
    (h1 : u ∉ mapKeys acc.user_cpu_times)
    (h2 : u ∉ mapKeys acc.user_memory_usage) :
    u ∉ mapKeys (procs.foldl (proc_step cfg users ps) acc).user_cpu_times ∧
    u ∉ mapKeys (procs.foldl (proc_step cfg users ps) acc).user_memory_usage := by
  induction procs generalizing acc with
  | nil => exact ⟨h1, h2⟩
  | cons p? procs ih =>
    simp only [List.foldl_cons]
    apply ih
    all_goals
      rcases p? with _ | p
      · simpa [proc_step]
      · simp only [proc_step]
        rcases hres : proc_resolved_user cfg users p with _ | name
        · simpa
        · by_cases hmem : name ∈ cfg.excluded_usernames
          · simpa [hmem]
          · have hnu : u ≠ name := fun h => hmem (h ▸ hu)
            simp only [if_neg hmem]
            simp [mem_keys_bump, h1, h2, hnu]

/-- An excluded username owns no key of either per-user map of the collector. -/
theorem collect_excluded_not_mem (cfg : Config) (inp : CollectInput) (u : String)
    (hu : u ∈ cfg.excluded_usernames) :
    u ∉ mapKeys (collect_cpu_memory_data cfg inp).user_cpu_times ∧
    u ∉ mapKeys (collect_cpu_memory_data cfg inp).user_memory_usage := by
  have h := collect_fold_excluded cfg inp.users inp.page_size inp.procs ⟨[], [], 0⟩ u hu
    (by simp [mapKeys]) (by simp [mapKeys])
  exact h

theorem collect_fold_sum (cfg : Config) (users : List (Nat × String)) (ps : Nat)
    (procs : List (Option ProcData)) (acc : CollectAcc)
    (h : acc.total_memory_used = sumVals acc.user_memory_usage) :
    (procs.foldl (proc_step cfg users ps) acc).total_memory_used =
      sumVals (procs.foldl (proc_step cfg users ps) acc).user_memory_usage := by
  induction procs generalizing acc with
  | nil => exact h
  | cons p? procs ih =>
    simp only [List.foldl_cons]
    apply ih
    rcases p? with _ | p
    · simpa [proc_step]
    · simp only [proc_step]
      rcases hres : proc_resolved_user cfg users p with _ | name
      · simpa
      · by_cases hmem : name ∈ cfg.excluded_usernames
        · simpa [hmem]
        · simp [if_neg hmem, sumVals_bump, h]

theorem update_core_some (cfg : Config) (now : ℚ) (c : CollectResult)
    (st : AggState) (g : Gauges) (p : PrevSnap) (hprev : st.prev = some p) :
    update_core cfg now c st g =
      nb_final c now (nb_evict cfg now (nb_loop cfg now c p (nb_start cfg now c st g p))) := by
  rcases st with ⟨pr, lut, au, ab, ls⟩
  dsimp only at hprev
  subst hprev
  rfl

theorem nb_final_fst_above (c : CollectResult) (now : ℚ) (s : AggState × Gauges) :
    (nb_final c now s).1.users_above_threshold = s.1.users_above_threshold := rfl

theorem nb_final_fst_all (c : CollectResult) (now : ℚ) (s : AggState × Gauges) :
    (nb_final c now s).1.all_users = s.1.all_users := rfl

theorem nb_final_fst_ls (c : CollectResult) (now : ℚ) (s : AggState × Gauges) :
    (nb_final c now s).1.last_seen = s.1.last_seen := rfl

theorem nb_final_snd (c : CollectResult) (now : ℚ) (s : AggState × Gauges) :
    (nb_final c now s).2 = s.2 := rfl

theorem nb_final_prev (c : CollectResult) (now : ℚ) (s : AggState × Gauges) :
    (nb_final c now s).1.prev =
      some ⟨c.total_cpu_time, c.idle_time, c.user_cpu_times⟩ := rfl

theorem nb_final_lut (c : CollectResult) (now : ℚ) (s : AggState × Gauges) :
    (nb_final c now s).1.last_update_time = some now := rfl

theorem nb_start_above (cfg : Config) (now : ℚ) (c : CollectResult)
    (st : AggState) (g : Gauges) (p : PrevSnap) :
    (nb_start cfg now c st g p).1.users_above_threshold = st.users_above_threshold := rfl

theorem nb_start_ls (cfg : Config) (now : ℚ) (c : CollectResult)
    (st : AggState) (g : Gauges) (p : PrevSnap) :
    (nb_start cfg now c st g p).1.last_seen = st.last_seen := rfl

theorem nb_start_all (cfg : Config) (now : ℚ) (c : CollectResult)
    (st : AggState) (g : Gauges) (p : PrevSnap) :
    (nb_start cfg now c st g p).1.all_users =
      unionS st.all_users (mapKeys c.user_cpu_times) := rfl

theorem nb_start_cpu (cfg : Config) (now : ℚ) (c : CollectResult)
    (st : AggState) (g : Gauges) (p : PrevSnap) :
    (nb_start cfg now c st g p).2.cpu_user_usage = g.cpu_user_usage := rfl

theorem nb_start_mem (cfg : Config) (now : ℚ) (c : CollectResult)
    (st : AggState) (g : Gauges) (p : PrevSnap) :
    (nb_start cfg now c st g p).2.memory_user_usage = g.memory_user_usage := rfl

theorem nb_loop_eq (cfg : Config) (now : ℚ) (c : CollectResult) (p : PrevSnap)
    (s : AggState × Gauges) :
    nb_loop cfg now c p s =
      s.1.all_users.foldl
        (user_step cfg now ((c.total_cpu_time : Int) - (p.total_cpu_time : Int))
          p.user_cpu_times c.user_cpu_times c.user_memory_usage) s := rfl

theorem nb_evict_eq (cfg : Config) (now : ℚ) (s : AggState × Gauges) :
    nb_evict cfg now s = s.1.users_above_threshold.foldl (evict_step cfg now) s := rfl

/-! ### Claim theorems -/

/-- C5: on the first call to `update_metrics` (no previous snapshot), the
current totals and per-user CPU counters are stored as the previous
snapshot, `all_users` is seeded with exactly the users of the current
sample, `users_above_threshold` is left empty, `last_seen` is emptied,
and the gauges are completely untouched — the call emits nothing. -/
theorem bootstrap_seeds_and_emits_nothing (cfg : Config) (tk : Tick)
    (st : AggState) (g : Gauges) (hprev : st.prev = none) :
    update_metrics cfg tk (st, g) =
      ({ st with
          prev := some ⟨(collect_cpu_memory_data cfg tk.env).total_cpu_time,
            (collect_cpu_memory_data cfg tk.env).idle_time,
            (collect_cpu_memory_data cfg tk.env).user_cpu_times⟩,
          last_update_time := some tk.current_time,
          all_users := mapKeys (collect_cpu_memory_data cfg tk.env).user_cpu_times,
          users_above_threshold := [],
          last_seen := [] }, g) := by
  simp only [update_metrics, update_core, hprev]

theorem bootstrap_seeds_and_emits_nothing_witness :
    (init_state.1.prev = none) ∧
    update_metrics ⟨60, 5, false, ["root"]⟩ ⟨0, ⟨[(1001, "alice")], 100, 40, 99, 1,
        [some ⟨3, 4, 5, some 1001⟩]⟩⟩ init_state =
      ({ init_state.1 with
          prev := some ⟨(collect_cpu_memory_data ⟨60, 5, false, ["root"]⟩
              ⟨[(1001, "alice")], 100, 40, 99, 1, [some ⟨3, 4, 5, some 1001⟩]⟩).total_cpu_time,
            (collect_cpu_memory_data ⟨60, 5, false, ["root"]⟩
              ⟨[(1001, "alice")], 100, 40, 99, 1, [some ⟨3, 4, 5, some 1001⟩]⟩).idle_time,
            (collect_cpu_memory_data ⟨60, 5, false, ["root"]⟩
              ⟨[(1001, "alice")], 100, 40, 99, 1, [some ⟨3, 4, 5, some 1001⟩]⟩).user_cpu_times⟩,
          last_update_time := some 0,
          all_users := mapKeys (collect_cpu_memory_data ⟨60, 5, false, ["root"]⟩
            ⟨[(1001, "alice")], 100, 40, 99, 1, [some ⟨3, 4, 5, some 1001⟩]⟩).user_cpu_times,
          users_above_threshold := [],
          last_seen := [] }, init_state.2) :=
  ⟨rfl, bootstrap_seeds_and_emits_nothing _ _ init_state.1 init_state.2 rfl⟩

/-- C9: on every tick after the first, `memory_total_usage` is set
unconditionally to the absolute `total_memory_used` figure of the current
collection — independent of any threshold and not a delta against the
previous sample (the result does not depend on any previous memory
field, since the snapshot stores no memory data at all). -/
theorem memory_total_gauge_absolute (cfg : Config) (tk : Tick)
    (st : AggState) (g : Gauges) (p : PrevSnap) (hprev : st.prev = some p) :
    (update_metrics cfg tk (st, g)).2.memory_total_usage =
      some (((collect_cpu_memory_data cfg tk.env).total_memory_used : Nat) : ℚ) := by
  simp only [update_metrics, update_core, hprev]
  rw [(efoldF_const _ _ _ _).2.2.2, (loopF_const _ _ _ _ _ _ _ _).2.2.2.2]

theorem memory_total_gauge_absolute_witness :
    (update_metrics wcfg wtk (wst, wg)).2.memory_total_usage =
      some (((collect_cpu_memory_data wcfg wtk.env).total_memory_used : Nat) : ℚ) :=
  memory_total_gauge_absolute wcfg wtk wst wg wprev rfl

/-- C1: on a non-bootstrap tick, a user in `users_above_threshold` at
eviction time (either above threshold this tick, with `last_seen` just
set to `now`, or below threshold and already active with an unchanged
`last_seen = t`) is removed if and only if `now - t ≥ grace_period`; the
removal retracts both labeled gauges and drops the user from
`users_above_threshold`, `all_users` and `last_seen`, and a user is
never removed while `now - t < grace_period`. -/
theorem eviction_exactly_at_grace (cfg : Config) (tk : Tick) (st : AggState)
    (g : Gauges) (p : PrevSnap) (u : String) (t : ℚ)
    (hprev : st.prev = some p)
    (hall : u ∈ st.all_users)
    (hcase : (cfg.cpu_usage_threshold ≤ tick_percent cfg tk st u ∧ t = tk.current_time) ∨
      (tick_percent cfg tk st u < cfg.cpu_usage_threshold ∧
        u ∈ st.users_above_threshold ∧ aget st.last_seen u = some t)) :
    (cfg.grace_period ≤ tk.current_time - t →
      aget (update_metrics cfg tk (st, g)).2.cpu_user_usage u = none ∧
      aget (update_metrics cfg tk (st, g)).2.memory_user_usage u = none ∧
      u ∉ (update_metrics cfg tk (st, g)).1.users_above_threshold ∧
      u ∉ (update_metrics cfg tk (st, g)).1.all_users ∧
      aget (update_metrics cfg tk (st, g)).1.last_seen u = none) ∧
    (tk.current_time - t < cfg.grace_period →
      u ∈ (update_metrics cfg tk (st, g)).1.users_above_threshold ∧
      (aget (update_metrics cfg tk (st, g)).2.cpu_user_usage u).isSome ∧
      (aget (update_metrics cfg tk (st, g)).2.memory_user_usage u).isSome ∧
      aget (update_metrics cfg tk (st, g)).1.last_seen u = some t) := by
  have hpct : tick_percent cfg tk st u =
      percent_of (((collect_cpu_memory_data cfg tk.env).total_cpu_time : Int) -
          (p.total_cpu_time : Int))
        (user_delta p.user_cpu_times (collect_cpu_memory_data cfg tk.env).user_cpu_times u) := by
    simp only [tick_percent, hprev]
  have hup : update_metrics cfg tk (st, g) =
      nb_final (collect_cpu_memory_data cfg tk.env) tk.current_time
        (nb_evict cfg tk.current_time
          (nb_loop cfg tk.current_time (collect_cpu_memory_data cfg tk.env) p
            (nb_start cfg tk.current_time (collect_cpu_memory_data cfg tk.env) st g p))) :=
    update_core_some cfg tk.current_time (collect_cpu_memory_data cfg tk.env) st g p hprev
  rw [hup]
  simp only [nb_final_fst_above, nb_final_fst_all, nb_final_fst_ls, nb_final_snd]
  set c := collect_cpu_memory_data cfg tk.env with hc
  set now := tk.current_time with hnow
  set S := nb_start cfg now c st g p with hS
  have huL : u ∈ S.1.all_users := by
    rw [hS, nb_start_all, mem_unionS]
    exact Or.inl hall
  have hloop : u ∈ (nb_loop cfg now c p S).1.users_above_threshold ∧
      aget (nb_loop cfg now c p S).1.last_seen u = some t ∧
      (aget (nb_loop cfg now c p S).2.cpu_user_usage u).isSome ∧
      (aget (nb_loop cfg now c p S).2.memory_user_usage u).isSome := by
    rw [nb_loop_eq]
    rcases hcase with ⟨hth, ht⟩ | ⟨hth, hab, hls⟩
    · rw [hpct] at hth
      have h1 := loopF_hi cfg now _ p.user_cpu_times c.user_cpu_times c.user_memory_usage
        S.1.all_users u huL hth S
      subst ht
      exact ⟨h1.2.2.2, h1.2.2.1, by rw [h1.1]; rfl, by rw [h1.2.1]; rfl⟩
    · rw [hpct] at hth
      have h1 := loopF_lo_in cfg now _ p.user_cpu_times c.user_cpu_times c.user_memory_usage
        S.1.all_users u huL hth S (by rw [hS, nb_start_above]; exact hab)
      refine ⟨h1.2.2.2, ?_, by rw [h1.1]; rfl, by rw [h1.2.1]; rfl⟩
      rw [h1.2.2.1, hS, nb_start_ls]
      exact hls
  set s1 := nb_loop cfg now c p S with hs1
  constructor
  · intro hge
    have hev : RemovedAt u (nb_evict cfg now s1) := by
      rw [nb_evict_eq]
      exact efoldF_evict cfg now s1.1.users_above_threshold u hloop.1 t s1 hloop.2.1 hge
    exact ⟨hev.1, hev.2.1, hev.2.2.1, hev.2.2.2.1, hev.2.2.2.2⟩
  · intro hlt
    have hkeep : SameAt u s1 (nb_evict cfg now s1) := by
      rw [nb_evict_eq]
      exact efoldF_keep cfg now s1.1.users_above_threshold u t s1 hloop.2.1 hlt
    refine ⟨hkeep.2.2.2.1.mpr hloop.1, ?_, ?_, hkeep.2.2.1.trans hloop.2.1⟩
    · rw [hkeep.1]; exact hloop.2.2.1
    · rw [hkeep.2.1]; exact hloop.2.2.2

theorem eviction_exactly_at_grace_witness :
    aget (update_metrics wcfg wtk (wst, wg)).2.cpu_user_usage "bob" = none ∧
    aget (update_metrics wcfg wtk (wst, wg)).2.memory_user_usage "bob" = none ∧
    "bob" ∉ (update_metrics wcfg wtk (wst, wg)).1.users_above_threshold ∧
    "bob" ∉ (update_metrics wcfg wtk (wst, wg)).1.all_users ∧
    aget (update_metrics wcfg wtk (wst, wg)).1.last_seen "bob" = none :=
  (eviction_exactly_at_grace wcfg wtk wst wg wprev "bob" 0 rfl
    (by with_unfolding_all decide)
    (Or.inr ⟨by with_unfolding_all decide, by with_unfolding_all decide, rfl⟩)).1
    (by with_unfolding_all decide)

/-- C4: on a non-bootstrap tick, a user who is in `users_above_threshold`
(and hence in `all_users`) whose percentage falls strictly below the
threshold while the grace period has not elapsed has both labeled gauges
set to the literal 0 (the series is not removed), keeps its
`users_above_threshold` membership, and has its `last_seen` entry left
untouched. -/
theorem below_threshold_reports_zero (cfg : Config) (tk : Tick) (st : AggState)
    (g : Gauges) (p : PrevSnap) (u : String) (t : ℚ)
    (hprev : st.prev = some p)
    (hall : u ∈ st.all_users)
    (hab : u ∈ st.users_above_threshold)
    (hth : tick_percent cfg tk st u < cfg.cpu_usage_threshold)
    (hls : aget st.last_seen u = some t)
    (hlt : tk.current_time - t < cfg.grace_period) :
    aget (update_metrics cfg tk (st, g)).2.cpu_user_usage u = some 0 ∧
    aget (update_metrics cfg tk (st, g)).2.memory_user_usage u = some 0 ∧
    aget (update_metrics cfg tk (st, g)).1.last_seen u = some t ∧
    u ∈ (update_metrics cfg tk (st, g)).1.users_above_threshold := by
  have hpct : tick_percent cfg tk st u =
      percent_of (((collect_cpu_memory_data cfg tk.env).total_cpu_time : Int) -
          (p.total_cpu_time : Int))
        (user_delta p.user_cpu_times (collect_cpu_memory_data cfg tk.env).user_cpu_times u) := by
    simp only [tick_percent, hprev]
  have hup : update_metrics cfg tk (st, g) =
      nb_final (collect_cpu_memory_data cfg tk.env) tk.current_time
        (nb_evict cfg tk.current_time
          (nb_loop cfg tk.current_time (collect_cpu_memory_data cfg tk.env) p
            (nb_start cfg tk.current_time (collect_cpu_memory_data cfg tk.env) st g p))) :=
    update_core_some cfg tk.current_time (collect_cpu_memory_data cfg tk.env) st g p hprev
  rw [hup]
  simp only [nb_final_fst_above, nb_final_fst_ls, nb_final_snd]
  set c := collect_cpu_memory_data cfg tk.env with hc
  set now := tk.current_time with hnow
  set S := nb_start cfg now c st g p with hS
  have huL : u ∈ S.1.all_users := by
    rw [hS, nb_start_all, mem_unionS]
    exact Or.inl hall
  rw [hpct] at hth
  have h1 := loopF_lo_in cfg now _ p.user_cpu_times c.user_cpu_times c.user_memory_usage
    S.1.all_users u huL hth S (by rw [hS, nb_start_above]; exact hab)
  rw [← nb_loop_eq] at h1
  set s1 := nb_loop cfg now c p S with hs1
  have hls1 : aget s1.1.last_seen u = some t := by
    rw [h1.2.2.1, hS, nb_start_ls]
    exact hls
  have hkeep : SameAt u s1 (nb_evict cfg now s1) := by
    rw [nb_evict_eq]
    exact efoldF_keep cfg now s1.1.users_above_threshold u t s1 hls1 hlt
  exact ⟨hkeep.1.trans h1.1, hkeep.2.1.trans h1.2.1,
    hkeep.2.2.1.trans hls1, hkeep.2.2.2.1.mpr h1.2.2.2⟩

theorem below_threshold_reports_zero_witness :
    aget (update_metrics wcfg wtk4 (wst, wg)).2.cpu_user_usage "bob" = some 0 ∧
    aget (update_metrics wcfg wtk4 (wst, wg)).2.memory_user_usage "bob" = some 0 ∧
    aget (update_metrics wcfg wtk4 (wst, wg)).1.last_seen "bob" = some 0 ∧
    "bob" ∈ (update_metrics wcfg wtk4 (wst, wg)).1.users_above_threshold :=
  below_threshold_reports_zero wcfg wtk4 wst wg wprev "bob" 0 rfl
    (by with_unfolding_all decide) (by with_unfolding_all decide)
    (by with_unfolding_all decide) rfl (by with_unfolding_all decide)

/-- Helper: the guarded percentage is 0 whenever the denominator is not
strictly positive. -/
theorem percent_of_nonpos (dt du : Int) (h : ¬ 0 < dt) : percent_of dt du = 0 := by
  simp [percent_of, h]

/-- C3: on a non-bootstrap tick whose `delta_total_cpu_time` is not
strictly positive, the global CPU gauge is set to exactly 0, every
per-user percentage computed this tick is exactly 0, every per-user CPU
gauge value written this tick is 0 (any other value was already there),
and the previous-snapshot fields are still replaced by the current
sample. -/
theorem zero_delta_all_percentages_zero (cfg : Config) (tk : Tick)
    (st : AggState) (g : Gauges) (p : PrevSnap)
    (hprev : st.prev = some p)
    (hdt : (collect_cpu_memory_data cfg tk.env).total_cpu_time ≤ p.total_cpu_time) :
    (update_metrics cfg tk (st, g)).2.cpu_total_usage = some 0 ∧
    (∀ u, tick_percent cfg tk st u = 0) ∧
    (∀ u v, aget (update_metrics cfg tk (st, g)).2.cpu_user_usage u = some v →
      v = 0 ∨ aget g.cpu_user_usage u = some v) ∧
    (update_metrics cfg tk (st, g)).1.prev =
      some ⟨(collect_cpu_memory_data cfg tk.env).total_cpu_time,
        (collect_cpu_memory_data cfg tk.env).idle_time,
        (collect_cpu_memory_data cfg tk.env).user_cpu_times⟩ ∧
    (update_metrics cfg tk (st, g)).1.last_update_time = some tk.current_time := by
  have hdt2 : ¬ (0 : Int) <
      ((collect_cpu_memory_data cfg tk.env).total_cpu_time : Int) - (p.total_cpu_time : Int) := by
    rw [not_lt, sub_nonpos]
    exact_mod_cast hdt
  have hup : update_metrics cfg tk (st, g) =
      nb_final (collect_cpu_memory_data cfg tk.env) tk.current_time
        (nb_evict cfg tk.current_time
          (nb_loop cfg tk.current_time (collect_cpu_memory_data cfg tk.env) p
            (nb_start cfg tk.current_time (collect_cpu_memory_data cfg tk.env) st g p))) :=
    update_core_some cfg tk.current_time (collect_cpu_memory_data cfg tk.env) st g p hprev
  rw [hup]
  refine ⟨?_, ?_, ?_, nb_final_prev _ _ _, nb_final_lut _ _ _⟩
  · rw [nb_final_snd, nb_evict_eq, (efoldF_const _ _ _ _).2.2.1, nb_loop_eq,
      (loopF_const _ _ _ _ _ _ _ _).2.2.2.1]
    show some (percent_of _ _) = some 0
    rw [percent_of_nonpos _ _ hdt2]
  · intro u
    simp only [tick_percent, hprev]
    exact percent_of_nonpos _ _ hdt2
  · intro u v h
    rw [nb_final_snd, nb_evict_eq] at h
    have h1 := (efoldF_lookup_some _ _ _ u v _).1 h
    rw [nb_loop_eq] at h1
    have h2 := loopF_zero_writes cfg tk.current_time _ p.user_cpu_times
      (collect_cpu_memory_data cfg tk.env).user_cpu_times
      (collect_cpu_memory_data cfg tk.env).user_memory_usage
      (nb_start cfg tk.current_time (collect_cpu_memory_data cfg tk.env) st g p).1.all_users
      hdt2 _ u v h1
    rcases h2 with h0 | hg
    · exact Or.inl h0
    · rw [nb_start_cpu] at hg
      exact Or.inr hg

theorem zero_delta_all_percentages_zero_witness :
    (update_metrics wcfg wtkZ (wst, wg)).2.cpu_total_usage = some 0 ∧
    tick_percent wcfg wtkZ wst "alice" = 0 ∧
    (update_metrics wcfg wtkZ (wst, wg)).1.last_update_time = some 10 :=
  have h := zero_delta_all_percentages_zero wcfg wtkZ wst wg wprev rfl (by decide)
  ⟨h.1, h.2.1 "alice", h.2.2.2.2⟩

/-- Helper: a tick on which `u` has no series, is not active, and is
(on a non-bootstrap tick) strictly below threshold leaves `u` with no
series and not active. -/
theorem tick_preserves_clean (cfg : Config) (tk : Tick) (st : AggState)
    (g : Gauges) (u : String)
    (hcpu : aget g.cpu_user_usage u = none)
    (hmem : aget g.memory_user_usage u = none)
    (hab : u ∉ st.users_above_threshold)
    (hbelow : st.prev = none ∨ tick_percent cfg tk st u < cfg.cpu_usage_threshold) :
    aget (update_metrics cfg tk (st, g)).2.cpu_user_usage u = none ∧
    aget (update_metrics cfg tk (st, g)).2.memory_user_usage u = none ∧
    u ∉ (update_metrics cfg tk (st, g)).1.users_above_threshold := by
  rcases hp : st.prev with _ | p
  · simp only [update_metrics, update_core, hp]
    exact ⟨hcpu, hmem, List.not_mem_nil u⟩
  · have hth : tick_percent cfg tk st u < cfg.cpu_usage_threshold := by
      rcases hbelow with h | h
      · rw [hp] at h; cases h
      · exact h
    have hpct : tick_percent cfg tk st u =
        percent_of (((collect_cpu_memory_data cfg tk.env).total_cpu_time : Int) -
            (p.total_cpu_time : Int))
          (user_delta p.user_cpu_times (collect_cpu_memory_data cfg tk.env).user_cpu_times u) := by
      simp only [tick_percent, hp]
    rw [hpct] at hth
    have hup : update_metrics cfg tk (st, g) =
        nb_final (collect_cpu_memory_data cfg tk.env) tk.current_time
          (nb_evict cfg tk.current_time
            (nb_loop cfg tk.current_time (collect_cpu_memory_data cfg tk.env) p
              (nb_start cfg tk.current_time (collect_cpu_memory_data cfg tk.env) st g p))) :=
      update_core_some cfg tk.current_time (collect_cpu_memory_data cfg tk.env) st g p hp
    rw [hup]
    simp only [nb_final_fst_above, nb_final_snd]
    set c := collect_cpu_memory_data cfg tk.env with hc
    set now := tk.current_time with hnow
    set S := nb_start cfg now c st g p with hS
    have habS : u ∉ S.1.users_above_threshold := by
      rw [hS, nb_start_above]; exact hab
    have hclean1 : SameAt u S (nb_loop cfg now c p S) := by
      rw [nb_loop_eq]
      exact loopF_lo_out cfg now _ p.user_cpu_times c.user_cpu_times c.user_memory_usage
        S.1.all_users u hth S habS
    set s1 := nb_loop cfg now c p S with hs1
    have hcpu1 : aget s1.2.cpu_user_usage u = none :=
      hclean1.1.trans (by rw [hS, nb_start_cpu]; exact hcpu)
    have hmem1 : aget s1.2.memory_user_usage u = none :=
      hclean1.2.1.trans (by rw [hS, nb_start_mem]; exact hmem)
    have habs1 : u ∉ s1.1.users_above_threshold :=
      fun h => habS (hclean1.2.2.2.1.mp h)
    refine ⟨?_, ?_, ?_⟩
    · rw [nb_evict_eq]
      exact (efoldF_none cfg now _ u s1).1 hcpu1
    · rw [nb_evict_eq]
      exact (efoldF_none cfg now _ u s1).2 hmem1
    · rw [nb_evict_eq]
      exact efoldF_shrink cfg now _ u s1 habs1

/-- C2: the threshold gate behaves exactly as specified. First part: on
a non-bootstrap tick with a positive grace period, a user of the loop
(previously known or present in the current sample) whose percentage is
at or above the threshold has the current percentage and the user's
current memory bytes published, `last_seen` set to `now`, and is in
`users_above_threshold` afterwards. Second part: a user with no series,
not active, whose percentage stays strictly below the threshold on every
non-bootstrap tick of a run, never gets a series created and never
becomes active. -/
theorem threshold_gate_and_never_created_below :
    (∀ (cfg : Config) (tk : Tick) (st : AggState) (g : Gauges) (p : PrevSnap) (u : String),
      st.prev = some p → 0 < cfg.grace_period →
      (u ∈ st.all_users ∨ u ∈ mapKeys (collect_cpu_memory_data cfg tk.env).user_cpu_times) →
      cfg.cpu_usage_threshold ≤ tick_percent cfg tk st u →
      aget (update_metrics cfg tk (st, g)).2.cpu_user_usage u =
        some (tick_percent cfg tk st u) ∧
      aget (update_metrics cfg tk (st, g)).2.memory_user_usage u =
        some (((aget (collect_cpu_memory_data cfg tk.env).user_memory_usage u).getD 0 : Nat) : ℚ) ∧
      aget (update_metrics cfg tk (st, g)).1.last_seen u = some tk.current_time ∧
      u ∈ (update_metrics cfg tk (st, g)).1.users_above_threshold) ∧
    (∀ (cfg : Config) (u : String) (ticks : List Tick) (s : AggState × Gauges),
      aget s.2.cpu_user_usage u = none →
      aget s.2.memory_user_usage u = none →
      u ∉ s.1.users_above_threshold →
      never_above cfg u ticks s = true →
      aget (run_updates cfg ticks s).2.cpu_user_usage u = none ∧
      aget (run_updates cfg ticks s).2.memory_user_usage u = none ∧
      u ∉ (run_updates cfg ticks s).1.users_above_threshold) := by
  constructor
  · intro cfg tk st g p u hprev hgrace hallor hth
    have hpct : tick_percent cfg tk st u =
        percent_of (((collect_cpu_memory_data cfg tk.env).total_cpu_time : Int) -
            (p.total_cpu_time : Int))
          (user_delta p.user_cpu_times (collect_cpu_memory_data cfg tk.env).user_cpu_times u) := by
      simp only [tick_percent, hprev]
    rw [hpct] at hth ⊢
    have hup : update_metrics cfg tk (st, g) =
        nb_final (collect_cpu_memory_data cfg tk.env) tk.current_time
          (nb_evict cfg tk.current_time
            (nb_loop cfg tk.current_time (collect_cpu_memory_data cfg tk.env) p
              (nb_start cfg tk.current_time (collect_cpu_memory_data cfg tk.env) st g p))) :=
      update_core_some cfg tk.current_time (collect_cpu_memory_data cfg tk.env) st g p hprev
    rw [hup]
    simp only [nb_final_fst_above, nb_final_fst_ls, nb_final_snd]
    set c := collect_cpu_memory_data cfg tk.env with hc
    set now := tk.current_time with hnow
    set S := nb_start cfg now c st g p with hS
    have huL : u ∈ S.1.all_users := by
      rw [hS, nb_start_all, mem_unionS]
      exact hallor
    have h1 := loopF_hi cfg now _ p.user_cpu_times c.user_cpu_times c.user_memory_usage
      S.1.all_users u huL hth S
    rw [← nb_loop_eq] at h1
    set s1 := nb_loop cfg now c p S with hs1
    have hkeep : SameAt u s1 (nb_evict cfg now s1) := by
      rw [nb_evict_eq]
      refine efoldF_keep cfg now s1.1.users_above_threshold u now s1 h1.2.2.1 ?_
      rw [sub_self]
      exact hgrace
    exact ⟨hkeep.1.trans h1.1, hkeep.2.1.trans h1.2.1,
      hkeep.2.2.1.trans h1.2.2.1, hkeep.2.2.2.1.mpr h1.2.2.2⟩
  · intro cfg u ticks
    induction ticks with
    | nil =>
      intro s h1 h2 h3 _
      exact ⟨h1, h2, h3⟩
    | cons t ts ih =>
      intro s h1 h2 h3 hna
      simp only [never_above, Bool.and_eq_true] at hna
      rcases hna with ⟨hhead, hrest⟩
      simp only [Bool.or_eq_true, Option.isNone_iff_eq_none, decide_eq_true_eq] at hhead
      have hstep := tick_preserves_clean cfg t s.1 s.2 u h1 h2 h3 hhead
      simp only [run_updates]
      exact ih (update_metrics cfg t s) hstep.1 hstep.2.1 hstep.2.2 hrest

theorem threshold_gate_and_never_created_below_witness :
    (aget (update_metrics wcfg wtk4 (wst, wg)).2.cpu_user_usage "alice" =
      some (tick_percent wcfg wtk4 wst "alice") ∧
      "alice" ∈ (update_metrics wcfg wtk4 (wst, wg)).1.users_above_threshold) ∧
    (aget (run_updates wcfg [⟨0, wenv⟩, ⟨10, wenv⟩] init_state).2.cpu_user_usage "carol" = none ∧
      "carol" ∉ (run_updates wcfg [⟨0, wenv⟩, ⟨10, wenv⟩] init_state).1.users_above_threshold) :=
  have h1 := threshold_gate_and_never_created_below.1 wcfg wtk4 wst wg wprev "alice" rfl
    (by with_unfolding_all decide) (Or.inl (by with_unfolding_all decide))
    (by with_unfolding_all decide)
  have h2 := threshold_gate_and_never_created_below.2 wcfg "carol"
    [⟨0, wenv⟩, ⟨10, wenv⟩] init_state rfl rfl (by with_unfolding_all decide)
    (by with_unfolding_all decide)
  ⟨⟨h1.1, h1.2.2.2⟩, ⟨h2.1, h2.2.2⟩⟩

theorem update_core_none (cfg : Config) (now : ℚ) (c : CollectResult)
    (st : AggState) (g : Gauges) (hprev : st.prev = none) :
    update_core cfg now c st g =
      ({ st with
          prev := some ⟨c.total_cpu_time, c.idle_time, c.user_cpu_times⟩,
          last_update_time := some now,
          all_users := mapKeys c.user_cpu_times,
          users_above_threshold := [],
          last_seen := [] }, g) := by
  rcases st with ⟨pr, lut, au, ab, ls⟩
  dsimp only at hprev
  subst hprev
  rfl

/-- C6: `StateInv` (every active user has a live value in both labeled
gauges and is known in `all_users`; before bootstrap nobody is active)
is preserved by every `update_metrics` call, and every user removed from
`users_above_threshold` during a call has both gauge series retracted in
that same call. -/
theorem state_invariant_preserved (cfg : Config) (tk : Tick)
    (s : AggState × Gauges) (hinv : StateInv s) :
    StateInv (update_metrics cfg tk s) ∧
    ∀ u ∈ s.1.users_above_threshold,
      u ∉ (update_metrics cfg tk s).1.users_above_threshold →
      aget (update_metrics cfg tk s).2.cpu_user_usage u = none ∧
      aget (update_metrics cfg tk s).2.memory_user_usage u = none := by
  rcases hp : s.1.prev with _ | p
  · have habv : s.1.users_above_threshold = [] := hinv.2.2 hp
    have hb : update_metrics cfg tk s =
        ({ s.1 with
            prev := some ⟨(collect_cpu_memory_data cfg tk.env).total_cpu_time,
              (collect_cpu_memory_data cfg tk.env).idle_time,
              (collect_cpu_memory_data cfg tk.env).user_cpu_times⟩,
            last_update_time := some tk.current_time,
            all_users := mapKeys (collect_cpu_memory_data cfg tk.env).user_cpu_times,
            users_above_threshold := [],
            last_seen := [] }, s.2) :=
      update_core_none cfg tk.current_time (collect_cpu_memory_data cfg tk.env) s.1 s.2 hp
    rw [hb]
    refine ⟨⟨?_, ?_, ?_⟩, ?_⟩
    · intro u hu
      exact absurd hu (List.not_mem_nil u)
    · intro u hu
      exact absurd hu (List.not_mem_nil u)
    · intro _
      rfl
    · intro u hu _
      rw [habv] at hu
      exact absurd hu (List.not_mem_nil u)
  · have hup : update_metrics cfg tk s =
        nb_final (collect_cpu_memory_data cfg tk.env) tk.current_time
          (nb_evict cfg tk.current_time
            (nb_loop cfg tk.current_time (collect_cpu_memory_data cfg tk.env) p
              (nb_start cfg tk.current_time (collect_cpu_memory_data cfg tk.env) s.1 s.2 p))) :=
      update_core_some cfg tk.current_time (collect_cpu_memory_data cfg tk.env) s.1 s.2 p hp
    rw [hup]
    set c := collect_cpu_memory_data cfg tk.env with hc
    set now := tk.current_time with hnow
    set S := nb_start cfg now c s.1 s.2 p with hS
    have hmain : ∀ u, u ∈ (nb_loop cfg now c p S).1.users_above_threshold →
        (aget (nb_loop cfg now c p S).2.cpu_user_usage u).isSome ∧
        (aget (nb_loop cfg now c p S).2.memory_user_usage u).isSome ∧
        u ∈ S.1.all_users := by
      intro u hu1
      rw [nb_loop_eq] at hu1 ⊢
      by_cases hu0 : u ∈ S.1.users_above_threshold
      · have hu0s : u ∈ s.1.users_above_threshold := by
          rw [hS, nb_start_above] at hu0; exact hu0
        have hlive := hinv.1 u hu0s
        have hknown := hinv.2.1 u hu0s
        have hpres := loopF_presence cfg now
          ((c.total_cpu_time : Int) - (p.total_cpu_time : Int))
          p.user_cpu_times c.user_cpu_times c.user_memory_usage S.1.all_users u S
        refine ⟨hpres.1 ?_, hpres.2 ?_, ?_⟩
        · rw [hS, nb_start_cpu]; exact hlive.1
        · rw [hS, nb_start_mem]; exact hlive.2
        · rw [hS, nb_start_all, mem_unionS]; exact Or.inl hknown
      · have hent := loopF_entered cfg now
          ((c.total_cpu_time : Int) - (p.total_cpu_time : Int))
          p.user_cpu_times c.user_cpu_times c.user_memory_usage S.1.all_users u S hu0 hu1
        exact ⟨hent.2.2.1, hent.2.2.2, hent.2.1⟩
    set s1 := nb_loop cfg now c p S with hs1
    have hs1all : s1.1.all_users = S.1.all_users := by
      rw [hs1, nb_loop_eq]
      exact (loopF_const cfg now ((c.total_cpu_time : Int) - (p.total_cpu_time : Int))
        p.user_cpu_times c.user_cpu_times c.user_memory_usage S.1.all_users S).1
    refine ⟨⟨?_, ?_, ?_⟩, ?_⟩
    · intro u hu
      rw [nb_final_fst_above, nb_evict_eq] at hu
      have hsame := efoldF_in_above cfg now s1.1.users_above_threshold u s1 hu
      have hm := hmain u (hsame.2.2.2.1.mp hu)
      constructor
      · rw [nb_final_snd, nb_evict_eq, hsame.1]
        exact hm.1
      · rw [nb_final_snd, nb_evict_eq, hsame.2.1]
        exact hm.2.1
    · intro u hu
      rw [nb_final_fst_above, nb_evict_eq] at hu
      have hsame := efoldF_in_above cfg now s1.1.users_above_threshold u s1 hu
      have hm := hmain u (hsame.2.2.2.1.mp hu)
      rw [nb_final_fst_all, nb_evict_eq]
      refine hsame.2.2.2.2.mpr ?_
      rw [hs1all]
      exact hm.2.2
    · intro h
      rw [nb_final_prev] at h
      exact Option.noConfusion h
    · intro u hu hnot
      rw [nb_final_fst_above, nb_evict_eq] at hnot
      have hu1 : u ∈ s1.1.users_above_threshold := by
        rw [hs1, nb_loop_eq]
        refine loopF_above_mono cfg now
          ((c.total_cpu_time : Int) - (p.total_cpu_time : Int))
          p.user_cpu_times c.user_cpu_times c.user_memory_usage S.1.all_users u S ?_
        rw [hS, nb_start_above]
        exact hu
      have hrm := efoldF_removed cfg now s1.1.users_above_threshold u s1 hu1 hnot
      constructor
      · rw [nb_final_snd, nb_evict_eq]
        exact hrm.1
      · rw [nb_final_snd, nb_evict_eq]
        exact hrm.2.1

theorem state_invariant_preserved_witness :
    StateInv (update_metrics wcfg wtk (wst, wg)) ∧
    aget (update_metrics wcfg wtk (wst, wg)).2.cpu_user_usage "bob" = none ∧
    aget (update_metrics wcfg wtk (wst, wg)).2.memory_user_usage "bob" = none :=
  have h := state_invariant_preserved wcfg wtk (wst, wg)
    (by unfold StateInv; with_unfolding_all decide)
  have h2 := h.2 "bob" (by with_unfolding_all decide) (by with_unfolding_all decide)
  ⟨h.1, h2.1, h2.2⟩

/-- Helper: a tick keeps an excluded user (who has no series, is not
active and not known) without series, inactive and unknown. -/
theorem tick_preserves_excluded (cfg : Config) (tk : Tick)
    (s : AggState × Gauges) (u : String)
    (hexc : u ∈ cfg.excluded_usernames)
    (hcpu : aget s.2.cpu_user_usage u = none)
    (hmem : aget s.2.memory_user_usage u = none)
    (hab : u ∉ s.1.users_above_threshold)
    (hall : u ∉ s.1.all_users) :
    aget (update_metrics cfg tk s).2.cpu_user_usage u = none ∧
    aget (update_metrics cfg tk s).2.memory_user_usage u = none ∧
    u ∉ (update_metrics cfg tk s).1.users_above_threshold ∧
    u ∉ (update_metrics cfg tk s).1.all_users := by
  have hkeys := collect_excluded_not_mem cfg tk.env u hexc
  rcases hp : s.1.prev with _ | p
  · have hb := update_core_none cfg tk.current_time (collect_cpu_memory_data cfg tk.env)
      s.1 s.2 hp
    have hb2 : update_metrics cfg tk s =
        ({ s.1 with
            prev := some ⟨(collect_cpu_memory_data cfg tk.env).total_cpu_time,
              (collect_cpu_memory_data cfg tk.env).idle_time,
              (collect_cpu_memory_data cfg tk.env).user_cpu_times⟩,
            last_update_time := some tk.current_time,
            all_users := mapKeys (collect_cpu_memory_data cfg tk.env).user_cpu_times,
            users_above_threshold := [],
            last_seen := [] }, s.2) := hb
    rw [hb2]
    exact ⟨hcpu, hmem, List.not_mem_nil u, hkeys.1⟩
  · have hup : update_metrics cfg tk s =
        nb_final (collect_cpu_memory_data cfg tk.env) tk.current_time
          (nb_evict cfg tk.current_time
            (nb_loop cfg tk.current_time (collect_cpu_memory_data cfg tk.env) p
              (nb_start cfg tk.current_time (collect_cpu_memory_data cfg tk.env) s.1 s.2 p))) :=
      update_core_some cfg tk.current_time (collect_cpu_memory_data cfg tk.env) s.1 s.2 p hp
    rw [hup]
    simp only [nb_final_fst_above, nb_final_fst_all, nb_final_snd]
    set c := collect_cpu_memory_data cfg tk.env with hc
    set now := tk.current_time with hnow
    set S := nb_start cfg now c s.1 s.2 p with hS
    have hallS : u ∉ S.1.all_users := by
      rw [hS, nb_start_all, mem_unionS]
      rintro (h | h)
      · exact hall h
      · exact hkeys.1 h
    have hsame : SameAt u S (nb_loop cfg now c p S) := by
      rw [nb_loop_eq]
      exact loopF_not_mem cfg now ((c.total_cpu_time : Int) - (p.total_cpu_time : Int))
        p.user_cpu_times c.user_cpu_times c.user_memory_usage S.1.all_users u hallS S
    set s1 := nb_loop cfg now c p S with hs1
    have hs1all : s1.1.all_users = S.1.all_users := by
      rw [hs1, nb_loop_eq]
      exact (loopF_const cfg now ((c.total_cpu_time : Int) - (p.total_cpu_time : Int))
        p.user_cpu_times c.user_cpu_times c.user_memory_usage S.1.all_users S).1
    have hcpu1 : aget s1.2.cpu_user_usage u = none :=
      hsame.1.trans (by rw [hS, nb_start_cpu]; exact hcpu)
    have hmem1 : aget s1.2.memory_user_usage u = none :=
      hsame.2.1.trans (by rw [hS, nb_start_mem]; exact hmem)
    have hab1 : u ∉ s1.1.users_above_threshold :=
      fun h => hab (by
        have := hsame.2.2.2.1.mp h
        rw [hS, nb_start_above] at this
        exact this)
    have hall1 : u ∉ s1.1.all_users := by
      rw [hs1all]
      exact hallS
    refine ⟨?_, ?_, ?_, ?_⟩
    · rw [nb_evict_eq]
      exact (efoldF_none cfg now _ u s1).1 hcpu1
    · rw [nb_evict_eq]
      exact (efoldF_none cfg now _ u s1).2 hmem1
    · rw [nb_evict_eq]
      exact efoldF_shrink cfg now _ u s1 hab1
    · rw [nb_evict_eq]
      exact efoldF_all_shrink cfg now _ u s1 hall1

/-- C7: an excluded username (the default "root" set merged with the CLI
names) never appears in any per-user series, in `users_above_threshold`
or in `all_users` along any run, and never keys either per-user map of a
collection; and with `exclude_system_users` on, a process whose uid is
below 1000 contributes nothing to any per-user aggregate (dropping it
leaves the whole collection unchanged). -/
theorem excluded_users_never_exposed :
    (∀ (cfg : Config) (u : String) (ticks : List Tick) (s : AggState × Gauges),
      u ∈ cfg.excluded_usernames →
      aget s.2.cpu_user_usage u = none →
      aget s.2.memory_user_usage u = none →
      u ∉ s.1.users_above_threshold →
      u ∉ s.1.all_users →
      aget (run_updates cfg ticks s).2.cpu_user_usage u = none ∧
      aget (run_updates cfg ticks s).2.memory_user_usage u = none ∧
      u ∉ (run_updates cfg ticks s).1.users_above_threshold ∧
      u ∉ (run_updates cfg ticks s).1.all_users) ∧
    (∀ (cfg : Config) (inp : CollectInput) (u : String),
      u ∈ cfg.excluded_usernames →
      aget (collect_cpu_memory_data cfg inp).user_cpu_times u = none ∧
      aget (collect_cpu_memory_data cfg inp).user_memory_usage u = none) ∧
    (∀ (cfg : Config) (inp : CollectInput) (p : ProcData) (uid : Nat)
      (l1 l2 : List (Option ProcData)),
      cfg.exclude_system_users = true → p.uid = some uid → uid < 1000 →
      collect_cpu_memory_data cfg { inp with procs := l1 ++ some p :: l2 } =
        collect_cpu_memory_data cfg { inp with procs := l1 ++ l2 }) := by
  refine ⟨?_, ?_, ?_⟩
  · intro cfg u ticks
    induction ticks with
    | nil =>
      intro s _ h1 h2 h3 h4
      exact ⟨h1, h2, h3, h4⟩
    | cons t ts ih =>
      intro s hexc h1 h2 h3 h4
      have hstep := tick_preserves_excluded cfg t s u hexc h1 h2 h3 h4
      simp only [run_updates]
      exact ih (update_metrics cfg t s) hexc hstep.1 hstep.2.1 hstep.2.2.1 hstep.2.2.2
  · intro cfg inp u hexc
    have h := collect_excluded_not_mem cfg inp u hexc
    exact ⟨(aget_eq_none _ _).mpr h.1, (aget_eq_none _ _).mpr h.2⟩
  · intro cfg inp p uid l1 l2 hsys hpuid hlt
    have hres : proc_resolved_user cfg inp.users p = none := by
      simp [proc_resolved_user, hpuid, hsys, is_system_user, hlt]
    have hacc : (l1 ++ some p :: l2).foldl
        (proc_step cfg inp.users inp.page_size) ⟨[], [], 0⟩ =
        (l1 ++ l2).foldl (proc_step cfg inp.users inp.page_size) ⟨[], [], 0⟩ := by
      rw [List.foldl_append, List.foldl_append, List.foldl_cons,
        proc_step_skip cfg inp.users inp.page_size _ p (Or.inl hres)]
    simp [collect_cpu_memory_data, hacc]

theorem excluded_users_never_exposed_witness :
    (aget (run_updates wcfg [⟨0, wenvR⟩, ⟨10, wenvR⟩] init_state).2.cpu_user_usage "root" =
        none ∧
      "root" ∉ (run_updates wcfg [⟨0, wenvR⟩, ⟨10, wenvR⟩] init_state).1.all_users) ∧
    aget (collect_cpu_memory_data wcfg wenvR).user_cpu_times "root" = none ∧
    collect_cpu_memory_data wcfgS { wenvR with procs := [some wpSys] } =
      collect_cpu_memory_data wcfgS { wenvR with procs := [] } :=
  have h1 := excluded_users_never_exposed.1 wcfg "root" [⟨0, wenvR⟩, ⟨10, wenvR⟩]
    init_state (by with_unfolding_all decide) rfl rfl
    (by with_unfolding_all decide) (by with_unfolding_all decide)
  have h2 := excluded_users_never_exposed.2.1 wcfg wenvR "root"
    (by with_unfolding_all decide)
  have h3 := excluded_users_never_exposed.2.2 wcfgS wenvR wpSys 5 [] []
    rfl rfl (by decide)
  ⟨⟨h1.1, h1.2.2.2⟩, h2.1, h3⟩

/-- C8 counterexample: the attribution bound is not enforced by the
code. The total and the per-user counters are read independently, so on
the tick after bootstrap the per-user deltas can sum to 5 while the
total delta is 0: the claimed inequality fails at this concrete input. -/
theorem user_delta_sum_can_exceed_total :
    tick_user_delta_sum wcfg ⟨10, w8env2⟩ (update_metrics wcfg ⟨0, w8env1⟩ init_state).1 = 5 ∧
    tick_delta_total wcfg ⟨10, w8env2⟩ (update_metrics wcfg ⟨0, w8env1⟩ init_state).1 = 0 ∧
    ¬ (tick_user_delta_sum wcfg ⟨10, w8env2⟩
          (update_metrics wcfg ⟨0, w8env1⟩ init_state).1 ≤
        tick_delta_total wcfg ⟨10, w8env2⟩
          (update_metrics wcfg ⟨0, w8env1⟩ init_state).1) := by
  with_unfolding_all decide

/-- C8 amended: on the spec's synthetic counters (user alice +30 ticks,
user bob +20 ticks, total +100 ticks with +40 idle) the published values
are exactly `cpu_total_usage = 60`, `cpu_user_usage{alice} = 30` and
`cpu_user_usage{bob} = 20`, and on that tick the per-user delta sum (50)
is indeed bounded by the total delta (100); the general bound, however,
is a property of the sampled counters, not one the code enforces. -/
theorem synthetic_counters_publish_expected_values :
    (run_updates wcfg [⟨0, w8aenv1⟩, ⟨10, w8aenv2⟩] init_state).2.cpu_total_usage =
      some 60 ∧
    aget (run_updates wcfg [⟨0, w8aenv1⟩, ⟨10, w8aenv2⟩] init_state).2.cpu_user_usage
      "alice" = some 30 ∧
    aget (run_updates wcfg [⟨0, w8aenv1⟩, ⟨10, w8aenv2⟩] init_state).2.cpu_user_usage
      "bob" = some 20 ∧
    tick_user_delta_sum wcfg ⟨10, w8aenv2⟩ (update_metrics wcfg ⟨0, w8aenv1⟩ init_state).1 = 50 ∧
    tick_delta_total wcfg ⟨10, w8aenv2⟩ (update_metrics wcfg ⟨0, w8aenv1⟩ init_state).1 = 100 := by
  with_unfolding_all decide

/-- C10: the used-memory total of a collection is exactly the sum of the
per-user memory values it returns; a process skipped by the exclusion
rules (system uid or excluded resolved username) contributes to neither
the per-user maps nor the used-memory total (dropping it leaves the
whole collection unchanged); and the MemTotal figure is returned
verbatim in `total_memory` but never influences `update_metrics` — its
gauges and state are identical for any value of `total_memory`. -/
theorem memory_total_is_sum_and_memtotal_unused :
    (∀ (cfg : Config) (inp : CollectInput),
      (collect_cpu_memory_data cfg inp).total_memory_used =
        sumVals (collect_cpu_memory_data cfg inp).user_memory_usage) ∧
    (∀ (cfg : Config) (inp : CollectInput) (p : ProcData) (l1 l2 : List (Option ProcData)),
      (proc_resolved_user cfg inp.users p = none ∨
        ∃ name, proc_resolved_user cfg inp.users p = some name ∧
          name ∈ cfg.excluded_usernames) →
      collect_cpu_memory_data cfg { inp with procs := l1 ++ some p :: l2 } =
        collect_cpu_memory_data cfg { inp with procs := l1 ++ l2 }) ∧
    (∀ (cfg : Config) (inp : CollectInput),
      (collect_cpu_memory_data cfg inp).total_memory = inp.total_memory) ∧
    (∀ (cfg : Config) (now : ℚ) (inp : CollectInput) (m : Nat) (s : AggState × Gauges),
      update_metrics cfg ⟨now, { inp with total_memory := m }⟩ s =
        update_metrics cfg ⟨now, inp⟩ s) := by
  refine ⟨?_, ?_, ?_, ?_⟩
  · intro cfg inp
    exact collect_fold_sum cfg inp.users inp.page_size inp.procs ⟨[], [], 0⟩ rfl
  · intro cfg inp p l1 l2 hskip
    have hacc : (l1 ++ some p :: l2).foldl
        (proc_step cfg inp.users inp.page_size) ⟨[], [], 0⟩ =
        (l1 ++ l2).foldl (proc_step cfg inp.users inp.page_size) ⟨[], [], 0⟩ := by
      rw [List.foldl_append, List.foldl_append, List.foldl_cons,
        proc_step_skip cfg inp.users inp.page_size _ p hskip]
    simp [collect_cpu_memory_data, hacc]
  · intro cfg inp
    rfl
  · intro cfg now inp m s
    rfl

theorem memory_total_is_sum_and_memtotal_unused_witness :
    ((collect_cpu_memory_data wcfg wenvR).total_memory_used =
      sumVals (collect_cpu_memory_data wcfg wenvR).user_memory_usage) ∧
    (collect_cpu_memory_data wcfg { wenvR with procs := [some wpRoot] } =
      collect_cpu_memory_data wcfg { wenvR with procs := [] }) ∧
    (collect_cpu_memory_data wcfg wenvR).total_memory = 999 ∧
    update_metrics wcfg ⟨10, { wenvR with total_memory := 5 }⟩ (wst, wg) =
      update_metrics wcfg ⟨10, wenvR⟩ (wst, wg) :=
  have h := memory_total_is_sum_and_memtotal_unused
  ⟨h.1 wcfg wenvR,
   h.2.1 wcfg wenvR wpRoot [] []
     (Or.inr ⟨"root", by with_unfolding_all decide, by with_unfolding_all decide⟩),
   h.2.2.1 wcfg wenvR,
   h.2.2.2 wcfg 10 wenvR 5 (wst, wg)⟩

end CpuUserExporter
